import Mathlib

/-!
Verification development for the CodeGuardian analysis pipeline.

This file gives a shallow embedding, in Lean, of the analysis job pipeline:
the confidence filter (`llm.service.ts`), the pattern detector and job
processor (`analysis.processor.ts`), the job manager (`analysis.service.ts`)
and the batch endpoint of the controller (`analysis.controller.ts`), and
proves or refutes the specification claims about them.

Modelling conventions:
* JavaScript strings are modelled as `String` / `List Char`; the regular
  expressions used by the source are embedded as explicit scanning functions
  over `List Char`, one per regex, each annotated with the regex it embeds.
* JavaScript numbers are modelled as `Nat`/`Int` where the source only holds
  integers, and as `ℚ` where the source divides (confidence thresholds,
  average complexity, quality score).  No claim depends on float rounding.
* The external text-generation service is modelled by an oracle
  `Nat → ServiceResponse` giving the response to the n-th validation request
  of a call, so theorems quantify over every possible sequence of service
  responses.
* Mutable service state (`quotaExceeded`, `lastQuotaErrorTime`) is threaded
  explicitly through `LLMState`.
-/

/-! ## Character and string helpers (JS semantics) -/

/-- JS whitespace class `\s` restricted to the characters that can occur in
the inputs we model (space, tab, CR, LF, vertical tab, form feed). -/
def jsSpace (c : Char) : Bool :=
  c = ' ' || c = '\t' || c = '\n' || c = '\r' || c = Char.ofNat 11 || c = Char.ofNat 12

/-- Case-insensitive character comparison, as used by a `/i` regex flag. -/
def charCI (a b : Char) : Bool := a.toLower = b.toLower

/-- Case-insensitive "starts with" on character lists. -/
def startsWithCI : List Char → List Char → Bool
  | [], _ => true
  | _ :: _, [] => false
  | n :: ns, h :: hs => charCI n h && startsWithCI ns hs

/-- Case-sensitive "starts with" on character lists. -/
def startsWithCS : List Char → List Char → Bool
  | [], _ => true
  | _ :: _, [] => false
  | n :: ns, h :: hs => (n = h : Bool) && startsWithCS ns hs

/-- Case-insensitive substring test (JS `/needle/i.test(hay)` for a literal
needle). -/
def containsCI (needle : List Char) : List Char → Bool
  | [] => needle.isEmpty
  | c :: t => startsWithCI needle (c :: t) || containsCI needle t

/-- Case-sensitive substring test (JS `String.prototype.includes`). -/
def containsCS (needle : List Char) : List Char → Bool
  | [] => needle.isEmpty
  | c :: t => startsWithCS needle (c :: t) || containsCS needle t

/-- Case-insensitive substring test taking the needle as a `String`. -/
def containsCIStr (needle : String) (hay : List Char) : Bool :=
  containsCI needle.data hay

/-- Drop a case-insensitive literal from the front, returning the remainder. -/
def dropLitCI : List Char → List Char → Option (List Char)
  | [], l => some l
  | _ :: _, [] => none
  | n :: ns, h :: hs => if charCI n h then dropLitCI ns hs else none

/-- Drop a case-sensitive literal from the front, returning the remainder. -/
def dropLitCS : List Char → List Char → Option (List Char)
  | [], l => some l
  | _ :: _, [] => none
  | n :: ns, h :: hs => if n = h then dropLitCS ns hs else none

/-- Does the pattern `p` match starting at some position of the list?  This is
how an unanchored regex scans its subject left to right. -/
def existsPos (p : List Char → Bool) : List Char → Bool
  | [] => p []
  | c :: t => p (c :: t) || existsPos p t

/-- Like `existsPos` but the pattern also sees the character just before the
match position, which is needed for the `\b` word-boundary assertion. -/
def existsPosPrev (p : Option Char → List Char → Bool) : Option Char → List Char → Bool
  | prev, [] => p prev []
  | prev, c :: t => p prev (c :: t) || existsPosPrev p (some c) t

/-- JS word character class `\w` = `[A-Za-z0-9_]`. -/
def isWordChar (c : Char) : Bool := c.isAlpha || c.isDigit || c = '_'

/-- The `\b` assertion holds before a word character when the previous
character is absent or not a word character. -/
def boundaryBefore : Option Char → Bool
  | none => true
  | some c => !isWordChar c

/-- Greedy `\s*`. -/
def afterSpaces (l : List Char) : List Char := l.dropWhile jsSpace

/-- The single-quote character, kept out of literals for hygiene. -/
def squote : Char := Char.ofNat 39

/-- The open-brace character. -/
def obrace : Char := Char.ofNat 123

/-- The close-brace character. -/
def cbrace : Char := Char.ofNat 125

/-- Quote class `['"]`. -/
def isQuoteChar (c : Char) : Bool := c = squote || c = '"'

/-- JS `String.prototype.split('\n')`, on the underlying characters. -/
def splitLinesAux (acc : List Char) : List Char → List (List Char)
  | [] => [acc.reverse]
  | c :: t => if c = '\n' then acc.reverse :: splitLinesAux [] t else splitLinesAux (c :: acc) t

/-- Split a string into its lines, as `content.split('\n')` does. -/
def splitLines (s : String) : List (List Char) := splitLinesAux [] s.data

/-- JS `String.prototype.trim()` on characters. -/
def jsTrim (l : List Char) : List Char :=
  ((l.dropWhile jsSpace).reverse.dropWhile jsSpace).reverse

/-- JS `a || b` for an optional string `a` and default `b`: `undefined` and
the empty string are falsy and select the default. -/
def jsStrOr (o : Option String) (d : String) : String :=
  match o with
  | none => d
  | some s => if s = "" then d else s

/-- JS `a || b` where both sides are optional strings. -/
def jsOptOr (o d : Option String) : Option String :=
  match o with
  | none => d
  | some s => if s = "" then d else some s

/-! ## Data model (`analysis.service.ts`, `llm.service.ts`) -/

/-- Severity of a security finding (`'low' | 'medium' | 'high'`). -/
inductive Severity where
  | low
  | medium
  | high
  deriving DecidableEq, Repr

/-- A security finding (`SecurityIssue` in `llm.service.ts`, also the element
type of `AnalysisResult.findings.security`). -/
structure SecurityIssue where
  file : String
  line : Nat
  severity : Severity
  message : String
  recommendation : Option String := none
  codeSnippet : Option String := none
  deriving DecidableEq, Repr

/-- A best-practice finding (`BestPracticeIssue` in `llm.service.ts`). -/
structure BestPracticeIssue where
  file : String
  line : Nat
  message : String
  recommendation : Option String := none
  codeSnippet : Option String := none
  deriving DecidableEq, Repr

/-- The JSON shape the text-generation service must answer with
(`LLMAnalysisResult` in `llm.service.ts`).  `confidence` is modelled as `ℚ`. -/
structure LLMAnalysisResult where
  isValidIssue : Bool
  confidence : ℚ
  reasoning : Option String := none
  improvedMessage : Option String := none
  improvedRecommendation : Option String := none
  severity : Option Severity := none
  deriving DecidableEq, Repr

/-- Mutable state of `LLMService`: the configuration flags and the circuit
breaker fields.  `lastQuotaErrorTime` is written by the source when a quota
error occurs but is never read anywhere in `llm.service.ts`. -/
structure LLMState where
  enabled : Bool
  hasClient : Bool
  quotaExceeded : Bool
  lastQuotaErrorTime : Nat
  deriving DecidableEq, Repr

/-- `LLMService.isEnabled` (llm.service.ts lines 60-62):
`return this.enabled && this.openai !== null;`.  Note that it does not
consult `quotaExceeded` or `lastQuotaErrorTime`. -/
def isEnabled (s : LLMState) : Bool := s.enabled && s.hasClient

/-- Outcome of one outbound validation request, as seen by the `try`/`catch`
in `validateSecurityIssue` / `validateBestPracticeIssue`: a parsed JSON
response, a response with no content, a 429/quota error, or any other error
(network failure, malformed JSON, ...). -/
inductive ServiceResponse where
  | ok (r : LLMAnalysisResult)
  | noContent
  | errQuota
  | errOther
  deriving DecidableEq, Repr

/-! ## Confidence filter (`llm.service.ts`) -/

/-- Shallow embedding of `LLMService.validateSecurityIssue` (lines 190-275).
Returns the `LLMAnalysisResult` produced, the updated service state, and
whether an outbound request was issued.  When a client is configured the
request is always issued, whatever `quotaExceeded` holds; on a quota error the
flag is set (and the timestamp recorded only on the first such error, mirroring
the `if (!this.quotaExceeded)` guard), and the issue defaults to
`{isValidIssue: true, confidence: 1.0}`; on any other error or an empty
response it defaults to `{isValidIssue: true, confidence: 0.5}`. -/
def validateSecurityIssue (st : LLMState) (issue : SecurityIssue) (fileContent : String)
    (resp : ServiceResponse) (now : Nat) : LLMAnalysisResult × LLMState × Bool :=
  if !st.hasClient then
    ({ isValidIssue := true, confidence := 1 }, st, false)
  else
    match resp with
    | .ok r => (r, st, true)
    | .noContent => ({ isValidIssue := true, confidence := 1/2 }, st, true)
    | .errQuota =>
      ({ isValidIssue := true, confidence := 1 },
       if st.quotaExceeded then st
       else { st with quotaExceeded := true, lastQuotaErrorTime := now }, true)
    | .errOther => ({ isValidIssue := true, confidence := 1/2 }, st, true)

/-- Shallow embedding of `LLMService.validateBestPracticeIssue`
(lines 280-362); identical control flow to `validateSecurityIssue`. -/
def validateBestPracticeIssue (st : LLMState) (issue : BestPracticeIssue) (fileContent : String)
    (resp : ServiceResponse) (now : Nat) : LLMAnalysisResult × LLMState × Bool :=
  if !st.hasClient then
    ({ isValidIssue := true, confidence := 1 }, st, false)
  else
    match resp with
    | .ok r => (r, st, true)
    | .noContent => ({ isValidIssue := true, confidence := 1/2 }, st, true)
    | .errQuota =>
      ({ isValidIssue := true, confidence := 1 },
       if st.quotaExceeded then st
       else { st with quotaExceeded := true, lastQuotaErrorTime := now }, true)
    | .errOther => ({ isValidIssue := true, confidence := 1/2 }, st, true)

/-- The keep condition `result.isValidIssue && result.confidence > 0.6`
(llm.service.ts lines 91 and 153). -/
def keepResult (r : LLMAnalysisResult) : Bool :=
  r.isValidIssue && decide ((6 : ℚ)/10 < r.confidence)

/-- How a kept security finding is rewritten by the service response
(llm.service.ts lines 92-98): message, recommendation and severity are
overwritten by the improved values where provided (JS `||`). -/
def applySecurityImprove (issue : SecurityIssue) (r : LLMAnalysisResult) : SecurityIssue :=
  { issue with
    message := jsStrOr r.improvedMessage issue.message
    recommendation := jsOptOr r.improvedRecommendation issue.recommendation
    severity := r.severity.getD issue.severity }

/-- How a kept best-practice finding is rewritten (llm.service.ts
lines 154-159); best-practice findings carry no severity. -/
def applyBestPracticeImprove (issue : BestPracticeIssue) (r : LLMAnalysisResult) :
    BestPracticeIssue :=
  { issue with
    message := jsStrOr r.improvedMessage issue.message
    recommendation := jsOptOr r.improvedRecommendation issue.recommendation }

/-- Element-wise validation of a batch of security findings: validate each
finding with its oracle response, keep it (rewritten) when `keepResult` holds.
Returns (kept findings, requests issued, final state).  Within a JS batch the
five requests run under `Promise.all`; since `validateSecurityIssue`'s output
depends only on `hasClient` (which never changes) and the response — never on
`quotaExceeded` — sequential threading of the state is an exact model. -/
def runSecBatch (oracle : Nat → ServiceResponse) (now : Nat) (fileContent : String) :
    LLMState → Nat → List SecurityIssue → List SecurityIssue × List SecurityIssue × LLMState
  | st, _, [] => ([], [], st)
  | st, i, x :: xs =>
    let step := validateSecurityIssue st x fileContent (oracle i) now
    let rest := runSecBatch oracle now fileContent step.2.1 (i + 1) xs
    ((if keepResult step.1 then [applySecurityImprove x step.1] else []) ++ rest.1,
     (if step.2.2 then [x] else []) ++ rest.2.1, rest.2.2)

/-- The batching loop of `analyzeSecurityIssues` (llm.service.ts lines 83-101):
`for (let i = 0; i < issuesToAnalyze.length; i += 5)` processes consecutive
slices of five findings.  Lists of at most five findings form the final batch. -/
def processSecBatches (oracle : Nat → ServiceResponse) (now : Nat) (fileContent : String) :
    LLMState → Nat → List SecurityIssue → List SecurityIssue × List SecurityIssue × LLMState
  | st, _, [] => ([], [], st)
  | st, i, a :: b :: c :: d :: e :: rest =>
    let first := runSecBatch oracle now fileContent st i [a, b, c, d, e]
    let more := processSecBatches oracle now fileContent first.2.2 (i + 5) rest
    (first.1 ++ more.1, first.2.1 ++ more.2.1, more.2.2)
  | st, i, l => runSecBatch oracle now fileContent st i l

/-- Shallow embedding of `LLMService.analyzeSecurityIssues` (lines 67-124).
Returns (output findings, outbound requests issued, final service state).
If the service is not enabled or there are no findings, the input is returned
unchanged with no requests.  Otherwise only the first 50 findings are
validated; the remainder is appended unmodified.  The `catch` at lines 109-123
is unreachable through service responses because `validateSecurityIssue` traps
every error internally, so it is not modelled. -/
def analyzeSecurityIssues (st : LLMState) (oracle : Nat → ServiceResponse) (now : Nat)
    (issues : List SecurityIssue) (fileContent : String) :
    List SecurityIssue × List SecurityIssue × LLMState :=
  if !isEnabled st || issues.isEmpty then
    (issues, [], st)
  else
    let issuesToAnalyze := issues.take 50
    let remainingIssues := issues.drop 50
    let validated := processSecBatches oracle now fileContent st 0 issuesToAnalyze
    (validated.1 ++ remainingIssues, validated.2.1, validated.2.2)

/-- Element-wise validation of a batch of best-practice findings; see
`runSecBatch`. -/
def runBPBatch (oracle : Nat → ServiceResponse) (now : Nat) (fileContent : String) :
    LLMState → Nat → List BestPracticeIssue →
    List BestPracticeIssue × List BestPracticeIssue × LLMState
  | st, _, [] => ([], [], st)
  | st, i, x :: xs =>
    let step := validateBestPracticeIssue st x fileContent (oracle i) now
    let rest := runBPBatch oracle now fileContent step.2.1 (i + 1) xs
    ((if keepResult step.1 then [applyBestPracticeImprove x step.1] else []) ++ rest.1,
     (if step.2.2 then [x] else []) ++ rest.2.1, rest.2.2)

/-- The batching loop of `analyzeBestPractices` (llm.service.ts
lines 145-162). -/
def processBPBatches (oracle : Nat → ServiceResponse) (now : Nat) (fileContent : String) :
    LLMState → Nat → List BestPracticeIssue →
    List BestPracticeIssue × List BestPracticeIssue × LLMState
  | st, _, [] => ([], [], st)
  | st, i, a :: b :: c :: d :: e :: rest =>
    let first := runBPBatch oracle now fileContent st i [a, b, c, d, e]
    let more := processBPBatches oracle now fileContent first.2.2 (i + 5) rest
    (first.1 ++ more.1, first.2.1 ++ more.2.1, more.2.2)
  | st, i, l => runBPBatch oracle now fileContent st i l

/-- Shallow embedding of `LLMService.analyzeBestPractices` (lines 129-185);
same structure as `analyzeSecurityIssues`. -/
def analyzeBestPractices (st : LLMState) (oracle : Nat → ServiceResponse) (now : Nat)
    (issues : List BestPracticeIssue) (fileContent : String) :
    List BestPracticeIssue × List BestPracticeIssue × LLMState :=
  if !isEnabled st || issues.isEmpty then
    (issues, [], st)
  else
    let issuesToAnalyze := issues.take 50
    let remainingIssues := issues.drop 50
    let validated := processBPBatches oracle now fileContent st 0 issuesToAnalyze
    (validated.1 ++ remainingIssues, validated.2.1, validated.2.2)

/-! ## Pattern detector: security rules (`analysis.processor.ts`,
`checkSecurityIssues`, part_001 lines 632-732)

Each JS regex is embedded as an explicit scanner.  Alternation groups whose
alternatives are mutually exclusive at any given position (distinct literal
heads) are embedded with `List.findSome?` / `List.any`, which coincides with
the regex's ordered-alternative backtracking. -/

/-- Alternatives of `(password|secret|api[_-]?key|token|private[_-]?key)`,
with the greedy `[_-]?` expanded (separator variants first). -/
def secretKeywordLits : List String :=
  ["password", "secret", "api_key", "api-key", "apikey", "token",
   "private_key", "private-key", "privatekey"]

/-- Match a case-insensitive literal at the head, returning the matched
original-case characters and the remainder. -/
def takeLitCI : List Char → List Char → Option (List Char × List Char)
  | [], l => some ([], l)
  | _ :: _, [] => none
  | n :: ns, h :: hs =>
    if charCI n h then (takeLitCI ns hs).map (fun p => (h :: p.1, p.2)) else none

/-- Match one of the secret keywords at the head of the list. -/
def matchSecretKeyword (l : List Char) : Option (List Char × List Char) :=
  secretKeywordLits.findSome? (fun kw => takeLitCI kw.data l)

/-- Match of the full assignment regex
`(password|secret|api[_-]?key|token|private[_-]?key)\s*[=:]\s*['"][^'"]{8,}['"]`
starting at this position: keyword, spaces, `=` or `:`, spaces, a quote, at
least eight non-quote characters, a quote. -/
def secretAssignAt (l : List Char) : Bool :=
  match matchSecretKeyword l with
  | none => false
  | some kwRest =>
    match afterSpaces kwRest.2 with
    | [] => false
    | c :: rest2 =>
      if c = '=' || c = ':' then
        match afterSpaces rest2 with
        | [] => false
        | q :: rest4 =>
          if isQuoteChar q then
            let body := rest4.takeWhile (fun ch => !isQuoteChar ch)
            let closing := rest4.dropWhile (fun ch => !isQuoteChar ch)
            decide (8 ≤ body.length) && !closing.isEmpty
          else false
      else false

/-- Unanchored test of the hardcoded-credential regex. -/
def secretAssignTest (l : List Char) : Bool := existsPos secretAssignAt l

/-- Needles of the suppression regex
`/process\.env|config|\.env|example|sample|test|TODO|FIXME|XXX/i`. -/
def hardcodedNegLits : List String :=
  ["process.env", "config", ".env", "example", "sample", "test", "TODO", "FIXME", "XXX"]

/-- Case-insensitive any-needle substring test. -/
def testAnyCI (lits : List String) (l : List Char) : Bool :=
  lits.any (fun s => containsCI s.data l)

/-- JS `line.trim().startsWith(p)` (case-sensitive). -/
def trimStartsWith (l : List Char) (p : String) : Bool :=
  startsWithCS p.data (jsTrim l)

/-- First match of `/(password|secret|api[_-]?key|token|private[_-]?key)/i`
on the line, returning the matched text in its original case. -/
def firstSecretKeyword : List Char → Option (List Char)
  | [] => none
  | c :: t =>
    match matchSecretKeyword (c :: t) with
    | some p => some p.1
    | none => firstSecretKeyword t

/-- The literal `${`, looked for by the injection regex. -/
def dollarBrace : List Char := ['$', obrace]

/-- Match of `(query|execute|exec)\s*\(.*\$\{` starting at this position. -/
def sqlQueryCallAt (l : List Char) : Bool :=
  [("query" : String), "execute", "exec"].any (fun kw =>
    match dropLitCI kw.data l with
    | none => false
    | some rest =>
      match afterSpaces rest with
      | c :: rest2 => c = '(' && containsCS dollarBrace rest2
      | [] => false)

/-- Match of `\+.*['"]` starting at this position: a `+` with a quote
somewhere after it. -/
def plusQuoteAt : List Char → Bool
  | [] => false
  | c :: t => c = '+' && t.any isQuoteChar

/-- The injection-risk regex
`/(query|execute|exec)\s*\(.*\$\{|\+.*['"]/i` (top-level alternation). -/
def sqlInjTest (l : List Char) : Bool :=
  existsPos sqlQueryCallAt l || existsPos plusQuoteAt l

/-- Needles of the ORM suppression regex
`/\.find|\.findOne|\.create|\.update|\.delete|\.save|ORM|Sequelize|TypeORM|Prisma/i`. -/
def sqlNegLits : List String :=
  [".find", ".findOne", ".create", ".update", ".delete", ".save",
   "ORM", "Sequelize", "TypeORM", "Prisma"]

/-- Match of `\beval\s*\(` at this position (with the preceding character for
the word boundary). -/
def evalCallAt (prev : Option Char) (l : List Char) : Bool :=
  boundaryBefore prev &&
    (match dropLitCI ("eval").data l with
     | none => false
     | some rest =>
       match afterSpaces rest with
       | c :: _ => c = '('
       | [] => false)

/-- Unanchored test of `/\beval\s*\(/i`. -/
def evalTest (l : List Char) : Bool := existsPosPrev evalCallAt none l

/-- Match of `\bMath\.random\s*\(` at this position. -/
def mathRandomAt (prev : Option Char) (l : List Char) : Bool :=
  boundaryBefore prev &&
    (match dropLitCI ("math.random").data l with
     | none => false
     | some rest =>
       match afterSpaces rest with
       | c :: _ => c = '('
       | [] => false)

/-- Unanchored test of `/\bMath\.random\s*\(/i`. -/
def mathRandomTest (l : List Char) : Bool := existsPosPrev mathRandomAt none l

/-- Needles of the security-context path regex
`/(token|session|password|secret|crypto|auth)/i`. -/
def securityPathLits : List String :=
  ["token", "session", "password", "secret", "crypto", "auth"]

/-- Match of `(md5|sha1)\s*\(` at this position (no word boundary in the
source regex). -/
def weakHashAt (l : List Char) : Bool :=
  [("md5" : String), "sha1"].any (fun kw =>
    match dropLitCI kw.data l with
    | none => false
    | some rest =>
      match afterSpaces rest with
      | c :: _ => c = '('
      | [] => false)

/-- Unanchored test of `/(md5|sha1)\s*\(/i`. -/
def weakHashTest (l : List Char) : Bool := existsPos weakHashAt l

/-- Needles of the hashing-context path regex
`/(hash|password|digest|crypto)/i`. -/
def hashPathLits : List String := ["hash", "password", "digest", "crypto"]

/-- JS `line.trim().substring(0, 100)`, the code snippet attached to
findings. -/
def snippetOf (l : List Char) : String := String.mk ((jsTrim l).take 100)

/-- The security findings emitted for a single line (part_001 lines 639-731):
the five rules, applied in source order, each pushing one finding when its
test passes. -/
def secLineFindings (path : String) (l : List Char) (lineNum : Nat) : List SecurityIssue :=
  (if secretAssignTest l && !testAnyCI hardcodedNegLits l &&
      !trimStartsWith l ("//") && !trimStartsWith l ("*") && !trimStartsWith l ("#") then
    [{ file := path, line := lineNum, severity := .high,
       message := ("Hardcoded ") ++
         (match firstSecretKeyword l with
          | some kw => String.mk kw
          | none => "secret") ++ (" detected"),
       recommendation := some ("Use environment variables (process.env) or a secrets manager (AWS Secrets Manager, HashiCorp Vault). Add to .gitignore and use .env.example for documentation."),
       codeSnippet := some (snippetOf l) }]
   else []) ++
  (if sqlInjTest l && !testAnyCI sqlNegLits l then
    [{ file := path, line := lineNum, severity := .high,
       message := ("SQL injection risk: String interpolation in database query"),
       recommendation := some ("Use parameterized queries: db.query(\"SELECT * FROM users WHERE id = ?\", [userId]). For ORMs, use built-in methods that handle parameterization automatically."),
       codeSnippet := some (snippetOf l) }]
   else []) ++
  (if evalTest l && !trimStartsWith l ("//") then
    [{ file := path, line := lineNum, severity := .high,
       message := ("eval() usage detected - critical security vulnerability"),
       recommendation := some ("Replace eval() with safe alternatives: JSON.parse() for JSON, Function constructor with validation, or use a proper parser library. Consider using a code generation tool if dynamic code is necessary."),
       codeSnippet := some (snippetOf l) }]
   else []) ++
  (if mathRandomTest l && testAnyCI securityPathLits path.data then
    [{ file := path, line := lineNum, severity := .medium,
       message := ("Math.random() in security-sensitive code"),
       recommendation := some ("Use Web Crypto API: crypto.getRandomValues() (browser) or crypto.randomBytes() (Node.js). Math.random() is predictable and not cryptographically secure."),
       codeSnippet := some (snippetOf l) }]
   else []) ++
  (if weakHashTest l && testAnyCI hashPathLits path.data then
    [{ file := path, line := lineNum, severity := .medium,
       message := ("Deprecated hash algorithm (MD5/SHA1) detected"),
       recommendation := some ("Use SHA-256 or SHA-3 for general hashing. For passwords: bcrypt (Node.js), argon2 (modern standard), or scrypt. Never use MD5 or SHA1 for security purposes."),
       codeSnippet := some (snippetOf l) }]
   else [])

/-- The `lines.forEach((line, index) => ...)` loop of `checkSecurityIssues`,
carrying the zero-based index. -/
def checkSecAux (path : String) : Nat → List (List Char) → List SecurityIssue
  | _, [] => []
  | i, l :: ls => secLineFindings path l (i + 1) ++ checkSecAux path (i + 1) ls

/-- Shallow embedding of `AnalysisProcessor.checkSecurityIssues`
(part_001 lines 632-732): split the file content into lines and emit the
per-line findings with 1-based line numbers. -/
def checkSecurityIssues (path content : String) : List SecurityIssue :=
  checkSecAux path 0 (splitLines content)

/-! ## Pattern detector: best-practice rules (`checkBestPractices`,
part_001 lines 737-859) -/

/-- Alternatives of `(TODO|FIXME|HACK|XXX|BUG)`. -/
def todoKeywordLits : List String := ["TODO", "FIXME", "HACK", "XXX", "BUG"]

/-- The character class `[\s:]`. -/
def isTodoSep (c : Char) : Bool := jsSpace c || c = ':'

/-- Match of `(TODO|FIXME|HACK|XXX|BUG)[\s:]+[A-Za-z]{5,}` at this position:
keyword, at least one separator, then at least five letters (the separator
class and the letter class are disjoint, so the greedy match is exact). -/
def todoCondAt (l : List Char) : Bool :=
  todoKeywordLits.any (fun kw =>
    match dropLitCI kw.data l with
    | none => false
    | some rest =>
      let seps := rest.takeWhile isTodoSep
      let tail := rest.dropWhile isTodoSep
      !seps.isEmpty && decide (5 ≤ (tail.takeWhile (fun c => c.isAlpha)).length))

/-- Unanchored test of `/(TODO|FIXME|HACK|XXX|BUG)[\s:]+[A-Za-z]{5,}/i`. -/
def todoCondTest (l : List Char) : Bool := existsPos todoCondAt l

/-- Match of `(TODO|FIXME|HACK|XXX|BUG)[\s:]+([^\n]{10,})` at this position,
returning the two capture groups (keyword text in original case, and the
body).  `[\s:]+` is greedy but backtracks so that the body, which may itself
begin with separators, reaches ten characters: with `k` separators and `r`
remaining characters the match succeeds iff `k ≥ 1` and `k - 1 + |r| ≥ 10`,
and the greedy separator run has length `min k (k + |r| - 10)`. -/
def todoMsgAt (l : List Char) : Option (List Char × List Char) :=
  todoKeywordLits.findSome? (fun kw =>
    match takeLitCI kw.data l with
    | none => none
    | some p =>
      let k := (p.2.takeWhile isTodoSep).length
      let r := p.2.drop k
      if k + r.length < 11 then none
      else
        let k1 := min k (k + r.length - 10)
        if k1 = 0 then none else some (p.1, p.2.drop k1))

/-- First match of the TODO message regex on the line. -/
def firstTodoMsg : List Char → Option (List Char × List Char)
  | [] => none
  | c :: t =>
    match todoMsgAt (c :: t) with
    | some p => some p
    | none => firstTodoMsg t

/-- The comment-marker test `/\/\/|\/\*|#/`. -/
def commentMarkerTest (l : List Char) : Bool :=
  containsCS ("//").data l || containsCS ("/*").data l || containsCS ("#").data l

/-- Match of `\bconsole\.(log|debug)\s*\(` at this position. -/
def consoleAt (prev : Option Char) (l : List Char) : Bool :=
  boundaryBefore prev &&
    ([("console.log" : String), "console.debug"].any (fun kw =>
      match dropLitCI kw.data l with
      | none => false
      | some rest =>
        match afterSpaces rest with
        | c :: _ => c = '('
        | [] => false))

/-- Unanchored test of `/\bconsole\.(log|debug)\s*\(/i`. -/
def consoleTest (l : List Char) : Bool := existsPosPrev consoleAt none l

/-- Needles of `/test|spec|\.test\.|\.spec\./i` (console rule path filter). -/
def consolePathNegLits : List String := ["test", "spec", ".test.", ".spec."]

/-- Match of `catch\s*\([^)]*\)\s*\{[\s]*\}` at this position: `catch`,
spaces, `(`, any non-`)` characters, `)`, spaces, `{`, spaces, `}`. -/
def emptyCatchAt (l : List Char) : Bool :=
  match dropLitCI ("catch").data l with
  | none => false
  | some rest =>
    match afterSpaces rest with
    | c :: rest2 =>
      if c = '(' then
        match rest2.dropWhile (fun ch => ch ≠ ')') with
        | _ :: rest3 =>
          match afterSpaces rest3 with
          | c3 :: rest4 =>
            if c3 = obrace then
              match afterSpaces rest4 with
              | c4 :: _ => c4 = cbrace
              | [] => false
            else false
          | [] => false
        | [] => false
      else false
    | [] => false

/-- Unanchored test of `/catch\s*\([^)]*\)\s*\{[\s]*\}/i`. -/
def emptyCatchTest (l : List Char) : Bool := existsPos emptyCatchAt l

/-- Needles of `(componentWillMount|componentWillReceiveProps|componentWillUpdate)`. -/
def deprecatedReactLits : List String :=
  ["componentWillMount", "componentWillReceiveProps", "componentWillUpdate"]

/-- Case-insensitive suffix test. -/
def endsWithCI (suffix : String) (l : List Char) : Bool :=
  startsWithCI suffix.data.reverse l.reverse

/-- The path test `/\.(jsx?|tsx?)$/i` (equivalently `/\.(js|jsx|ts|tsx)$/i`):
the path ends in one of the four script extensions. -/
def scriptFileTest (path : String) : Bool :=
  [(".js" : String), ".jsx", ".ts", ".tsx"].any (fun s => endsWithCI s path.data)

/-- Match of `\bvar\s+\w+` at this position. -/
def varDeclAt (prev : Option Char) (l : List Char) : Bool :=
  boundaryBefore prev &&
    (match dropLitCI ("var").data l with
     | none => false
     | some rest =>
       !(rest.takeWhile jsSpace).isEmpty &&
         (match rest.dropWhile jsSpace with
          | c :: _ => isWordChar c
          | [] => false))

/-- Unanchored test of `/\bvar\s+\w+/i`. -/
def varDeclTest (l : List Char) : Bool := existsPosPrev varDeclAt none l

/-- Match of `[^=!<>=]=\s*[^=<>]` at this position.  With backtracking over
the greedy `\s*` this regex matches iff a character outside `=!<>` is followed
by `=` and then by some further character outside `=<>` (a space in the `\s*`
run can itself serve as the final character). -/
def looseEqAt : List Char → Bool
  | c1 :: c2 :: c3 :: _ =>
    !(c1 = '=' || c1 = '!' || c1 = '<' || c1 = '>') && c2 = '=' &&
      !(c3 = '=' || c3 = '<' || c3 = '>')
  | _ => false

/-- Unanchored test of `/[^=!<>=]=\s*[^=<>]/i`. -/
def looseEqTest (l : List Char) : Bool := existsPos looseEqAt l

/-- Match of `[^=!]=\s*[^=<>]` at this position (the inner confirmation
regex), by the same backtracking analysis. -/
def looseEqInnerAt : List Char → Bool
  | c1 :: c2 :: c3 :: _ =>
    !(c1 = '=' || c1 = '!') && c2 = '=' && !(c3 = '=' || c3 = '<' || c3 = '>')
  | _ => false

/-- Unanchored test of `/[^=!]=\s*[^=<>]/`. -/
def looseEqInnerTest (l : List Char) : Bool := existsPos looseEqInnerAt l

/-- Needles of `/===|!==|<=|>=/i`. -/
def strictEqLits : List String := ["===", "!==", "<=", ">="]

/-- The best-practice findings emitted for a single line (part_001
lines 743-858), in source order.  `next` is the following line
(`lines[index+1]`), used by the empty-catch rule. -/
def bpLineFindings (path : String) (l : List Char) (next : Option (List Char))
    (lineNum : Nat) : List BestPracticeIssue :=
  (if decide (150 < l.length) && !trimStartsWith l ("//") && !trimStartsWith l ("*") then
    [{ file := path, line := lineNum,
       message := ("Line exceeds 150 characters (") ++ toString l.length ++ (" chars)"),
       recommendation := some ("Break into multiple lines or extract to a variable. Modern IDEs support soft wrapping, but long lines hurt readability and code review."),
       codeSnippet := some (String.mk (l.take 150) ++ ("...")) }]
   else []) ++
  (if todoCondTest l && commentMarkerTest l && !testAnyCI ["test", "spec", "example"] path.data then
    match firstTodoMsg l with
    | some g =>
      [{ file := path, line := lineNum,
         message := String.mk g.1 ++ (" found: ") ++ String.mk ((jsTrim g.2).take 60) ++
           (if decide (60 < g.2.length) then ("...") else ("")),
         recommendation := some ("Create a GitHub issue or Jira ticket to track this. Add a reference number in the comment (e.g., TODO #123)."),
         codeSnippet := some (snippetOf l) }]
    | none => []
   else []) ++
  (if consoleTest l && !testAnyCI consolePathNegLits path.data && !trimStartsWith l ("//") then
    [{ file := path, line := lineNum,
       message := ("console.log() in production code"),
       recommendation := some ("Use a logging library: Winston/Pino (Node.js), or your framework logger. Configure log levels (DEBUG, INFO, WARN, ERROR) and disable DEBUG in production."),
       codeSnippet := some (snippetOf l) }]
   else []) ++
  (if emptyCatchTest l ||
      (containsCS ("catch").data l &&
        (match next with
         | some nl => jsTrim nl = [cbrace]
         | none => false)) then
    [{ file := path, line := lineNum,
       message := ("Empty catch block - errors are silently swallowed"),
       recommendation := some ("Always handle errors: log with context (logger.error(err, context)), notify monitoring (Sentry, Datadog), or rethrow if unhandled. Silent failures make debugging impossible."),
       codeSnippet := some (snippetOf l) }]
   else []) ++
  (if testAnyCI deprecatedReactLits l && scriptFileTest path then
    [{ file := path, line := lineNum,
       message := ("Deprecated React lifecycle method"),
       recommendation := some ("React 18+ removed these methods. Use: useEffect() for side effects, getDerivedStateFromProps() for derived state, or getSnapshotBeforeUpdate() for snapshots."),
       codeSnippet := some (snippetOf l) }]
   else []) ++
  (if varDeclTest l && scriptFileTest path && !trimStartsWith l ("//") then
    [{ file := path, line := lineNum,
       message := ("var declaration used instead of let/const"),
       recommendation := some ("Use const by default, let when reassignment is needed. var has function scope and can cause bugs. Modern JS (ES6+) standard is let/const."),
       codeSnippet := some (snippetOf l) }]
   else []) ++
  (if looseEqTest l && !(strictEqLits.any (fun s => containsCI s.data l)) &&
      scriptFileTest path && !trimStartsWith l ("//") &&
      (containsCS (" == ").data l || looseEqInnerTest l) then
    [{ file := path, line := lineNum,
       message := ("Loose equality (==) instead of strict equality (===)"),
       recommendation := some ("Always use === and !== to avoid type coercion bugs. ESLint rule: eqeqeq enforces this. Only use == if you explicitly need type coercion."),
       codeSnippet := some (snippetOf l) }]
   else [])

/-- The `lines.forEach((line, index) => ...)` loop of `checkBestPractices`;
`ls.head?` is `lines[index+1]`. -/
def checkBPAux (path : String) : Nat → List (List Char) → List BestPracticeIssue
  | _, [] => []
  | i, l :: ls => bpLineFindings path l ls.head? (i + 1) ++ checkBPAux path (i + 1) ls

/-- Shallow embedding of `AnalysisProcessor.checkBestPractices`
(part_001 lines 737-859). -/
def checkBestPractices (path content : String) : List BestPracticeIssue :=
  checkBPAux path 0 (splitLines content)

/-! ## Pattern detector: complexity heuristic (`calculateComplexity`,
part_001 lines 603-627) -/

/-- Terminator of a control-flow pattern after its keyword: `\s*\(`, `\s*\{`,
or `\s+`. -/
inductive CFTerm where
  | paren
  | brace
  | plusSpace
  deriving DecidableEq, Repr

/-- Match a control-flow pattern `\bKW<term>` (case-sensitive, as in the
source regexes) at this position, returning the remainder after the match. -/
def cfMatchAt (kw : String) (term : CFTerm) (prev : Option Char) (l : List Char) :
    Option (List Char) :=
  if !boundaryBefore prev then none
  else
    match dropLitCS kw.data l with
    | none => none
    | some rest =>
      match term with
      | .paren =>
        match afterSpaces rest with
        | c :: r => if c = '(' then some r else none
        | [] => none
      | .brace =>
        match afterSpaces rest with
        | c :: r => if c = obrace then some r else none
        | [] => none
      | .plusSpace =>
        if (rest.takeWhile jsSpace).isEmpty then none else some (rest.dropWhile jsSpace)

/-- Count the non-overlapping matches of a pattern across the subject, as
`content.match(/.../g)` does: scan left to right, skipping past each match.
Every matched text ends in a non-word character, so after a skip the word
boundary holds; `fuel` bounds the number of steps (each step consumes at
least one character, so the subject length suffices). -/
def countCFAux (matchAt : Option Char → List Char → Option (List Char)) :
    Nat → Option Char → List Char → Nat
  | 0, _, _ => 0
  | _ + 1, _, [] => 0
  | fuel + 1, prev, c :: t =>
    match matchAt prev (c :: t) with
    | some rest => 1 + countCFAux matchAt fuel (some ' ') rest
    | none => countCFAux matchAt fuel (some c) t

/-- Count matches of one control-flow regex over the whole content. -/
def countCF (matchAt : Option Char → List Char → Option (List Char)) (l : List Char) : Nat :=
  countCFAux matchAt l.length none l

/-- The nine control-flow regexes of `calculateComplexity`:
`\bif\s*\(`, `\belse\s*\{`, `\bfor\s*\(`, `\bwhile\s*\(`, `\bswitch\s*\(`,
`\bcase\s+`, `\bcatch\s*\(`, `\bawait\s+`, `\btry\s*\{`. -/
def cfPatterns : List (String × CFTerm) :=
  [("if", .paren), ("else", .brace), ("for", .paren), ("while", .paren),
   ("switch", .paren), ("case", .plusSpace), ("catch", .paren),
   ("await", .plusSpace), ("try", .brace)]

/-- Shallow embedding of `AnalysisProcessor.calculateComplexity`
(part_001 lines 603-627): base complexity 1 plus one per control-flow match.
The `language` argument is taken but unused, as in the source. -/
def calculateComplexity (content language : String) : Nat :=
  1 + (cfPatterns.map (fun p => countCF (cfMatchAt p.1 p.2) content.data)).sum

/-! ## Quality score and result assembly (`calculateQualityScore`,
`analyzeFiles`, part_001 lines 200-316 and 864-883) -/

/-- JS `Math.round`: round half toward positive infinity. -/
def jsRound (q : ℚ) : ℤ := ⌊q + 1/2⌋

/-- Shallow embedding of `AnalysisProcessor.calculateQualityScore`
(part_001 lines 864-883): start from 100, subtract 5 per security issue, 1
per best-practice issue, and 2 per point of average complexity above 10; then
clamp the rounded score to [0, 100]. -/
def calculateQualityScore (securityIssues bestPracticeIssues : Nat)
    (avgComplexity : ℚ) : ℤ :=
  let score : ℚ := 100 - (securityIssues : ℚ) * 5 - (bestPracticeIssues : ℚ) * 1
  let score2 : ℚ := if 10 < avgComplexity then score - (avgComplexity - 10) * 2 else score
  max 0 (min 100 (jsRound score2))

/-- A fetched repository file: `{path, content, language}`. -/
structure FileEntry where
  path : String
  content : String
  language : String
  deriving DecidableEq, Repr

/-- The detected tech stack (`AnalysisResult.summary.techStack`). -/
structure TechStack where
  frameworks : List String
  libraries : List String
  buildTools : List String
  databases : List String
  other : List String
  deriving DecidableEq, Repr

/-- `AnalysisResult.summary`.  The `languages` record is an insertion-ordered
map, as a JS object with string keys behaves. -/
structure ResultSummary where
  totalFiles : Nat
  totalLines : Nat
  languages : List (String × Nat)
  techStack : TechStack
  deriving DecidableEq, Repr

/-- `AnalysisResult.metrics.complexity`. -/
structure ComplexityMetrics where
  average : ℚ
  max : Nat
  deriving DecidableEq, Repr

/-- `AnalysisResult.metrics.codeQuality`. -/
structure CodeQuality where
  score : ℤ
  issues : Nat
  deriving DecidableEq, Repr

/-- `AnalysisResult.metrics`. -/
structure ResultMetrics where
  complexity : ComplexityMetrics
  codeQuality : CodeQuality
  deriving DecidableEq, Repr

/-- `AnalysisResult.findings`. -/
structure ResultFindings where
  security : List SecurityIssue
  bestPractices : List BestPracticeIssue
  deriving DecidableEq, Repr

/-- The report attached to a completed job (`AnalysisResult` in
`analysis.service.ts` lines 33-73). -/
structure AnalysisResult where
  summary : ResultSummary
  metrics : ResultMetrics
  findings : ResultFindings
  deriving DecidableEq, Repr

/-- `languages[lang] = (languages[lang] || 0) + lines` on an insertion-ordered
string-keyed object. -/
def recAdd (m : List (String × Nat)) (k : String) (v : Nat) : List (String × Nat) :=
  match m with
  | [] => [(k, v)]
  | (k', v') :: t => if k' = k then (k', v' + v) :: t else (k', v') :: recAdd t k v

/-- Append `x` to the group of key `k`, creating the group at the end on
first occurrence — the `Map`-based grouping of `analyzeFiles` (part_001
lines 245-257), whose iteration order is key-insertion order. -/
def groupAdd {α : Type} (m : List (String × List α)) (k : String) (x : α) :
    List (String × List α) :=
  match m with
  | [] => [(k, [x])]
  | (k', xs) :: t => if k' = k then (k', xs ++ [x]) :: t else (k', xs) :: groupAdd t k x

/-- Group security findings by their source file. -/
def groupByFileSec (issues : List SecurityIssue) : List (String × List SecurityIssue) :=
  issues.foldl (fun m i => groupAdd m i.file i) []

/-- Group best-practice findings by their source file. -/
def groupByFileBP (issues : List BestPracticeIssue) : List (String × List BestPracticeIssue) :=
  issues.foldl (fun m i => groupAdd m i.file i) []

/-- `new Map(files.map(f => [f.path, f.content])).get(p)`: with duplicate
paths the last entry wins. -/
def fileMapGet (files : List FileEntry) (p : String) : Option String :=
  ((files.filter (fun f => f.path = p)).getLast?).map FileEntry.content

/-- Shallow embedding of `AnalysisProcessor.analyzeFiles` (part_001
lines 200-316).  `techStack` stands for the value of
`this.detectTechStack(files)` (lines 321-501), a pure function of `files`
that parses dependency manifests; no claim depends on its value, so the
theorems below hold for every possible tech stack, in particular the one the
source computes.  `oracleSec`/`oracleBP` give, per source file, the service
responses for that file's validation requests.  The per-file filter calls run
under `Promise.all` sharing the service state; as the filter's output never
depends on the mutable quota state (see `validateSecurityIssue`), passing
each group the same starting state is an exact model of the outputs. -/
def analyzeFiles (st : LLMState) (oracleSec oracleBP : String → Nat → ServiceResponse)
    (now : Nat) (files : List FileEntry) (techStack : TechStack) : AnalysisResult :=
  let totalLines := (files.map (fun f => (splitLines f.content).length)).sum
  let languages := files.foldl
    (fun m f => recAdd m f.language (splitLines f.content).length) []
  let complexities := files.map (fun f => calculateComplexity f.content f.language)
  let totalComplexity := complexities.sum
  let maxComplexity := complexities.foldl Nat.max 0
  let securityIssues := files.flatMap (fun f => checkSecurityIssues f.path f.content)
  let bestPracticeIssues := files.flatMap (fun f => checkBestPractices f.path f.content)
  let filteredSecurityIssues :=
    if isEnabled st then
      ((groupByFileSec securityIssues).map (fun g =>
        (analyzeSecurityIssues st (oracleSec g.1) now g.2 ((fileMapGet files g.1).getD (""))).1)).flatten
    else securityIssues
  let filteredBestPracticeIssues :=
    if isEnabled st then
      ((groupByFileBP bestPracticeIssues).map (fun g =>
        (analyzeBestPractices st (oracleBP g.1) now g.2 ((fileMapGet files g.1).getD (""))).1)).flatten
    else bestPracticeIssues
  let avgComplexity : ℚ := if 0 < files.length then (totalComplexity : ℚ) / files.length else 0
  let codeQualityScore :=
    calculateQualityScore filteredSecurityIssues.length filteredBestPracticeIssues.length
      avgComplexity
  { summary :=
      { totalFiles := files.length
        totalLines := totalLines
        languages := languages
        techStack := techStack }
    metrics :=
      { complexity :=
          { average := (jsRound (avgComplexity * 100) : ℚ) / 100
            max := maxComplexity }
        codeQuality :=
          { score := codeQualityScore
            issues := filteredSecurityIssues.length + filteredBestPracticeIssues.length } }
    findings :=
      { security := filteredSecurityIssues
        bestPractices := filteredBestPracticeIssues } }

/-! ## Job manager (`analysis.service.ts`) -/

/-- Job lifecycle status: `'pending' | 'processing' | 'completed' | 'failed'`. -/
inductive JobStatus where
  | pending
  | processing
  | completed
  | failed
  deriving DecidableEq, Repr

/-- `{owner, repo, fullName}`. -/
structure RepoRef where
  owner : String
  repo : String
  fullName : String
  deriving DecidableEq, Repr

/-- An analysis job record (`AnalysisJob`, analysis.service.ts lines 16-31).
Timestamps are epoch milliseconds. -/
structure AnalysisJob where
  id : String
  userId : Int
  repository : RepoRef
  status : JobStatus
  progress : Nat
  result : Option AnalysisResult := none
  error : Option String := none
  createdAt : Nat
  startedAt : Option Nat := none
  completedAt : Option Nat := none
  deriving DecidableEq, Repr

/-- A `Partial<AnalysisJob>` as passed to `updateJobStatus`: the callers only
ever set these six fields.  A `some` field is present in the update object and
overwrites; a `none` field is absent and leaves the job's value alone
(`Object.assign` semantics for the literals the callers build). -/
structure JobUpdate where
  status : Option JobStatus := none
  progress : Option Nat := none
  result : Option AnalysisResult := none
  error : Option String := none
  startedAt : Option Nat := none
  completedAt : Option Nat := none
  deriving DecidableEq, Repr

/-- `Object.assign(job, updates)` for the update shapes above. -/
def applyUpdate (j : AnalysisJob) (u : JobUpdate) : AnalysisJob :=
  { j with
    status := u.status.getD j.status
    progress := u.progress.getD j.progress
    result := u.result.orElse (fun _ => j.result)
    error := u.error.orElse (fun _ => j.error)
    startedAt := u.startedAt.orElse (fun _ => j.startedAt)
    completedAt := u.completedAt.orElse (fun _ => j.completedAt) }

/-- The global `jobStore: Map<string, AnalysisJob>`, modelled as an
insertion-ordered association list with unique keys, which is exactly a JS
`Map`'s observable behaviour. -/
abbrev JobStore := List (String × AnalysisJob)

/-- `jobStore.get(id)`. -/
def storeGet (s : JobStore) (id : String) : Option AnalysisJob :=
  match s with
  | [] => none
  | (k, j) :: t => if k = id then some j else storeGet t id

/-- `jobStore.set(id, job)`: overwrite in place if the key exists, append
otherwise. -/
def storeSet (s : JobStore) (id : String) (j : AnalysisJob) : JobStore :=
  match s with
  | [] => [(id, j)]
  | (k, j') :: t => if k = id then (id, j) :: t else (k, j') :: storeSet t id j

/-- `Array.from(jobStore.values())`. -/
def storeValues (s : JobStore) : List AnalysisJob := s.map Prod.snd

/-- Shallow embedding of `AnalysisService.updateJobStatus`
(analysis.service.ts lines 178-184): if the job exists, `Object.assign` the
updates onto it and store it back; if the id is unknown, do nothing.  It is a
total function: no branch throws, and no branch checks the job's current
status. -/
def updateJobStatus (jobId : String) (updates : JobUpdate) (s : JobStore) : JobStore :=
  match storeGet s jobId with
  | none => s
  | some job => storeSet s jobId (applyUpdate job updates)

/-- Shallow embedding of `AnalysisService.getJobStatus` (lines 167-173):
`NotFoundException` on an unknown id is the `Except.error` branch. -/
def getJobStatus (s : JobStore) (jobId : String) : Except String AnalysisJob :=
  match storeGet s jobId with
  | none => Except.error (("Analysis job ") ++ jobId ++ (" not found"))
  | some job => Except.ok job

/-- The authenticated principal (`JwtPayload`): `sub` is the GitHub user id. -/
structure JwtUser where
  sub : Int
  githubToken : Option String := none
  deriving DecidableEq, Repr

/-- Shallow embedding of the synchronous part of
`AnalysisService.startAnalysis` (lines 98-162): generate an id (the source
uses a timestamp and `Math.random`; here the caller supplies the generated
`jobId`), persist the initial pending record, and return the id.  The
asynchronous dispatch (queue or `setImmediate`) runs the processor later and
is modelled separately by `processRun`. -/
def startAnalysis (user : JwtUser) (owner repo : String) (jobId : String) (now : Nat)
    (s : JobStore) : JobStore × String :=
  let fullName := owner ++ ("/") ++ repo
  let job : AnalysisJob :=
    { id := jobId
      userId := user.sub
      repository := { owner := owner, repo := repo, fullName := fullName }
      status := .pending
      progress := 0
      createdAt := now }
  (storeSet s jobId job, jobId)

/-- Sort key of the history comparator: `completedAt?.getTime() || 0`. -/
def completedKey (j : AnalysisJob) : Nat := j.completedAt.getD 0

/-- Shallow embedding of `AnalysisService.getUserHistory` (lines 198-209):
filter the store's values to this user's completed jobs that carry a result,
sort most-recent-first by completion time (JS `Array.prototype.sort` is
stable; `mergeSort` is too), and keep the first 50. -/
def getUserHistory (userId : Int) (s : JobStore) : List AnalysisJob :=
  (((storeValues s).filter
      (fun j => j.userId = userId && j.status = JobStatus.completed && j.result.isSome)).mergeSort
    (fun a b => completedKey b ≤ completedKey a)).take 50

/-! ## Controller: batch start (`analysis.controller.ts` lines 123-155) -/

/-- Outcome of the batch endpoint: an error body or the list of job ids. -/
inductive BatchOutcome where
  | err (msg : String)
  | ok (jobIds : List String)
  deriving DecidableEq, Repr

/-- `repositories.map(({owner, repo}) => startAnalysis(user, owner, repo))`,
threading the job store; `idGen k` is the id generated for the k-th remaining
repository (the recursive call shifts the generator). -/
def runBatch (user : JwtUser) (now : Nat) :
    (Nat → String) → JobStore → List (String × String) → JobStore × List String
  | _, s, [] => (s, [])
  | idGen, s, (owner, repo) :: rest =>
    let step := startAnalysis user owner repo (idGen 0) now s
    let more := runBatch user now (fun i => idGen (i + 1)) step.1 rest
    (more.1, step.2 :: more.2)

/-- Shallow embedding of `AnalysisController.startBatchAnalysis`
(analysis.controller.ts lines 123-155).  `repositories = none` models a
missing/non-array body field.  An empty or missing list and a list of more
than ten entries are rejected before any job is created. -/
def startBatchAnalysis (user : JwtUser) (repositories : Option (List (String × String)))
    (idGen : Nat → String) (now : Nat) (s : JobStore) : BatchOutcome × JobStore :=
  match repositories with
  | none => (.err ("Repositories array is required"), s)
  | some repos =>
    if repos.isEmpty then (.err ("Repositories array is required"), s)
    else if 10 < repos.length then (.err ("Maximum 10 repositories allowed per batch"), s)
    else
      let r := runBatch user now idGen s repos
      (.ok r.2, r.1)

/-! ## Processor: the job's update sequence (`AnalysisProcessor.process`,
part_001 lines 53-97) -/

/-- How a processor run ends: the repository fetch throws, the analysis
throws, or the analysis succeeds with a result.  (`updateJobStatus` itself
never throws.) -/
inductive RunOutcome where
  | fetchFail (msg : String)
  | analyzeFail (msg : String)
  | success (r : AnalysisResult)

/-- The stores reached after each `updateJobStatus` call of
`AnalysisProcessor.process`, in order: the initial store, then the
processing/progress updates, ending in the terminal update.  `t1` is the
start time, `t2` the completion time, `llmEnabled` the value of
`this.llmService.isEnabled()` used for the 90/95 progress choice. -/
def processStores (jobId : String) (outcome : RunOutcome) (llmEnabled : Bool)
    (t1 t2 : Nat) (s : JobStore) : List JobStore :=
  let s1 := updateJobStatus jobId
    { status := some .processing, progress := some 10, startedAt := some t1 } s
  match outcome with
  | .fetchFail msg =>
    [s, s1,
     updateJobStatus jobId
       { status := some .failed, error := some msg, completedAt := some t2 } s1]
  | .analyzeFail msg =>
    let s2 := updateJobStatus jobId { progress := some 30 } s1
    [s, s1, s2,
     updateJobStatus jobId
       { status := some .failed, error := some msg, completedAt := some t2 } s2]
  | .success r =>
    let s2 := updateJobStatus jobId { progress := some 30 } s1
    let s3 := updateJobStatus jobId
      { progress := some (if llmEnabled then 95 else 90) } s2
    [s, s1, s2, s3,
     updateJobStatus jobId
       { status := some .completed, progress := some 100, result := some r,
         completedAt := some t2 } s3]

/-- The final store of a processor run. -/
def processRun (jobId : String) (outcome : RunOutcome) (llmEnabled : Bool)
    (t1 t2 : Nat) (s : JobStore) : JobStore :=
  (processStores jobId outcome llmEnabled t1 t2 s).getLast (by
    cases outcome <;> simp [processStores])

/-- The job's status as observed in a store. -/
def statusIn (s : JobStore) (jobId : String) : Option JobStatus :=
  (storeGet s jobId).map AnalysisJob.status

/-- The legal edges of the job state machine of §4.4:
pending → processing → completed | failed. -/
def allowedEdge : JobStatus → JobStatus → Bool
  | .pending, .processing => true
  | .processing, .completed => true
  | .processing, .failed => true
  | _, _ => false

/-- One observation step either keeps the status or follows a legal edge, on
present jobs. -/
def allowedStep (a b : Option JobStatus) : Prop :=
  match a, b with
  | some x, some y => x = y ∨ allowedEdge x y = true
  | _, _ => False

/-! ## Store lemmas -/

theorem storeGet_storeSet_self (s : JobStore) (k : String) (j : AnalysisJob) :
    storeGet (storeSet s k j) k = some j := by
  induction s with
  | nil => simp [storeSet, storeGet]
  | cons p t ih =>
    by_cases h : p.1 = k
    · simp [storeSet, storeGet, h]
    · simp [storeSet, storeGet, h, ih]

theorem storeGet_updateJobStatus (jobId : String) (u : JobUpdate) (s : JobStore)
    (j : AnalysisJob) (h : storeGet s jobId = some j) :
    storeGet (updateJobStatus jobId u s) jobId = some (applyUpdate j u) := by
  simp [updateJobStatus, h, storeGet_storeSet_self]

theorem storeGet_append_none (s t : JobStore) (k : String) (h : storeGet s k = none) :
    storeGet (s ++ t) k = storeGet t k := by
  induction s with
  | nil => simp
  | cons p r ih =>
    simp only [storeGet] at h
    by_cases hp : p.1 = k
    · simp [hp] at h
    · simp only [List.cons_append, storeGet, hp, if_neg hp]
      exact ih (by simpa [hp] using h)

theorem storeSet_fresh (s : JobStore) (k : String) (j : AnalysisJob)
    (h : storeGet s k = none) : storeSet s k j = s ++ [(k, j)] := by
  induction s with
  | nil => simp [storeSet]
  | cons p t ih =>
    simp only [storeGet] at h
    by_cases hp : p.1 = k
    · simp [hp] at h
    · simp only [storeSet, if_neg hp, List.cons_append, List.cons.injEq, true_and]
      exact ih (by simpa [hp] using h)

/-- C10. Calling `updateJobStatus` with a jobId that is not in the store is a
silent no-op: the function is total (no branch throws), it creates no record
and leaves the store unchanged. -/
theorem updateJobStatus_unknown_id_noop (jobId : String) (u : JobUpdate) (s : JobStore)
    (h : storeGet s jobId = none) : updateJobStatus jobId u s = s := by
  simp [updateJobStatus, h]

/-- A completed job sitting in a store, used to exercise `updateJobStatus`. -/
def cexJob : AnalysisJob :=
  { id := "job-1", userId := 7
    repository := { owner := "o", repo := "r", fullName := "o/r" }
    status := .completed, progress := 100, createdAt := 0, completedAt := some 5 }

/-- A store holding only `cexJob` under its id. -/
def cexStore : JobStore := [(("job-1" : String), cexJob)]

theorem updateJobStatus_unknown_id_noop_witness :
    storeGet cexStore ("job-9") = none ∧
      updateJobStatus ("job-9") { status := some .failed } cexStore = cexStore :=
  ⟨by decide, updateJobStatus_unknown_id_noop ("job-9") { status := some .failed } cexStore
    (by decide)⟩

/-- C1 counterexample: `updateJobStatus` applied to a job that already reached
the terminal status `completed` is neither rejected nor ignored — it changes
the job's `status` field (here back to `processing`), so a later out-of-order
update does mutate a terminal job. -/
theorem terminal_update_not_ignored_cex :
    statusIn cexStore ("job-1") = some .completed ∧
    statusIn (updateJobStatus ("job-1") { status := some .processing } cexStore) ("job-1") =
      some .processing ∧
    storeGet (updateJobStatus ("job-1") { status := some .processing } cexStore) ("job-1") ≠
      storeGet cexStore ("job-1") := by
  refine ⟨by decide, by decide, by decide⟩

/-- C1 (amended). The processor's own update sequence drives a pending job
along pending → processing → {completed | failed} with no other edges (each
consecutive pair of observed statuses is either equal or a legal edge, and the
run ends in a terminal status).  `updateJobStatus` itself, however, does not
guard terminal states: it applies any update to any existing job regardless of
its current status — only unknown job ids are ignored. -/
theorem processor_transitions_and_unguarded_update (jobId : String) (outcome : RunOutcome)
    (llmEnabled : Bool) (t1 t2 : Nat) (s : JobStore) (j : AnalysisJob)
    (h : storeGet s jobId = some j) (hp : j.status = .pending) :
    ((processStores jobId outcome llmEnabled t1 t2 s).map (fun st => statusIn st jobId)).Chain'
      allowedStep ∧
    (statusIn (processRun jobId outcome llmEnabled t1 t2 s) jobId = some .completed ∨
      statusIn (processRun jobId outcome llmEnabled t1 t2 s) jobId = some .failed) ∧
    (∀ (s' : JobStore) (j' : AnalysisJob) (u : JobUpdate), storeGet s' jobId = some j' →
      updateJobStatus jobId u s' = storeSet s' jobId (applyUpdate j' u)) := by
  have h0 : statusIn s jobId = some .pending := by simp [statusIn, h, hp]
  have g1 := storeGet_updateJobStatus jobId
    { status := some .processing, progress := some 10, startedAt := some t1 } s j h
  refine ⟨?_, ?_, ?_⟩
  · cases outcome with
    | fetchFail msg =>
      have g2 := storeGet_updateJobStatus jobId
        { status := some .failed, error := some msg, completedAt := some t2 } _ _ g1
      simp [processStores, statusIn, g1, g2, applyUpdate, hp, h0, allowedStep, allowedEdge, h]
    | analyzeFail msg =>
      have g2 := storeGet_updateJobStatus jobId { progress := some 30 } _ _ g1
      have g3 := storeGet_updateJobStatus jobId
        { status := some .failed, error := some msg, completedAt := some t2 } _ _ g2
      simp [processStores, statusIn, g1, g2, g3, applyUpdate, hp, h0, allowedStep, allowedEdge, h]
    | success r =>
      have g2 := storeGet_updateJobStatus jobId { progress := some 30 } _ _ g1
      have g3 := storeGet_updateJobStatus jobId
        { progress := some (if llmEnabled then 95 else 90) } _ _ g2
      have g4 := storeGet_updateJobStatus jobId
        { status := some .completed, progress := some 100, result := some r,
          completedAt := some t2 } _ _ g3
      simp [processStores, statusIn, g1, g2, g3, g4, applyUpdate, hp, h0, allowedStep,
        allowedEdge, h]
  · cases outcome with
    | fetchFail msg =>
      have g2 := storeGet_updateJobStatus jobId
        { status := some .failed, error := some msg, completedAt := some t2 } _ _ g1
      right
      simp [processRun, processStores, statusIn, g2, applyUpdate]
    | analyzeFail msg =>
      have g2 := storeGet_updateJobStatus jobId { progress := some 30 } _ _ g1
      have g3 := storeGet_updateJobStatus jobId
        { status := some .failed, error := some msg, completedAt := some t2 } _ _ g2
      right
      simp [processRun, processStores, statusIn, g3, applyUpdate]
    | success r =>
      have g2 := storeGet_updateJobStatus jobId { progress := some 30 } _ _ g1
      have g3 := storeGet_updateJobStatus jobId
        { progress := some (if llmEnabled then 95 else 90) } _ _ g2
      have g4 := storeGet_updateJobStatus jobId
        { status := some .completed, progress := some 100, result := some r,
          completedAt := some t2 } _ _ g3
      left
      simp [processRun, processStores, statusIn, g4, applyUpdate]
  · intro s' j' u hg
    simp [updateJobStatus, hg]

theorem processor_transitions_and_unguarded_update_witness :
    storeGet [(("job-2" : String), { cexJob with id := "job-2", status := .pending })]
        ("job-2") = some { cexJob with id := "job-2", status := .pending } ∧
    (statusIn (processRun ("job-2") (.fetchFail ("boom")) false 1 2
        [(("job-2" : String), { cexJob with id := "job-2", status := .pending })]) ("job-2") =
          some .completed ∨
      statusIn (processRun ("job-2") (.fetchFail ("boom")) false 1 2
        [(("job-2" : String), { cexJob with id := "job-2", status := .pending })]) ("job-2") =
          some .failed) :=
  ⟨by decide,
    (processor_transitions_and_unguarded_update ("job-2") (.fetchFail ("boom")) false 1 2
      [(("job-2" : String), { cexJob with id := "job-2", status := .pending })]
      { cexJob with id := "job-2", status := .pending } (by decide) (by decide)).2.1⟩

/-- C4. The result assembled by `analyzeFiles` satisfies
`findings.security.length + findings.bestPractices.length =
metrics.codeQuality.issues`, for every input file set, every service state
(filter enabled or not) and every sequence of service responses; the
processor attaches exactly this result to a job on completion. -/
theorem analyzeFiles_issue_count_invariant (st : LLMState)
    (oracleSec oracleBP : String → Nat → ServiceResponse) (now : Nat)
    (files : List FileEntry) (techStack : TechStack) :
    (analyzeFiles st oracleSec oracleBP now files techStack).metrics.codeQuality.issues =
      (analyzeFiles st oracleSec oracleBP now files techStack).findings.security.length +
        (analyzeFiles st oracleSec oracleBP now files techStack).findings.bestPractices.length :=
  rfl

/-! ## Circuit breaker and per-finding error handling (C2, C3) -/

/-- The service state after a quota error has been observed:
`quotaExceeded = true`, client still configured. -/
def quotaSt : LLMState :=
  { enabled := true, hasClient := true, quotaExceeded := true, lastQuotaErrorTime := 0 }

/-- The service state with the client configured and no quota error yet. -/
def enabledSt : LLMState :=
  { enabled := true, hasClient := true, quotaExceeded := false, lastQuotaErrorTime := 0 }

/-- A sample pattern-detector finding fed to the confidence filter. -/
def secFinding : SecurityIssue :=
  { file := "a.ts", line := 3, severity := .high, message := "Hardcoded password detected" }

/-- C2 (code bug).  With `quotaExceeded = true` the filter still issues one
outbound request per finding — `isEnabled` (llm.service.ts lines 60-62) never
consults `quotaExceeded`, and `lastQuotaErrorTime` is written but never read,
so no cooldown is ever checked.  Moreover the response is still applied: here
the service's next response rejects the finding and the filter drops it
instead of passing it through unmodified.  This contradicts the source's own
log message ("LLM analysis disabled … Will retry after 1 hour") and the
README's description of the quota fallback. -/
theorem quota_breaker_still_issues_requests :
    quotaSt.quotaExceeded = true ∧
    ((analyzeSecurityIssues quotaSt
        (fun _ => .ok { isValidIssue := false, confidence := 1 }) 0 [secFinding] ("")).2.1).length
      = 1 ∧
    (analyzeSecurityIssues quotaSt
        (fun _ => .ok { isValidIssue := false, confidence := 1 }) 0 [secFinding] ("")).1
      = [] := by
  refine ⟨rfl, by decide, by decide⟩

/-- C3 (code bug).  A non-quota error (or an empty response) on an individual
validation call defaults the result to `{isValidIssue: true, confidence: 0.5}`
(the source comments say "Default to keeping issue"), but the keep condition
requires `confidence > 0.6`, so `0.5` fails it and the finding is dropped
from the filter's output instead of being kept unmodified. -/
theorem validation_error_finding_dropped :
    validateSecurityIssue enabledSt secFinding ("") .errOther 0 =
      ({ isValidIssue := true, confidence := 1/2 }, enabledSt, true) ∧
    keepResult { isValidIssue := true, confidence := 1/2 } = false ∧
    (analyzeSecurityIssues enabledSt (fun _ => .errOther) 0 [secFinding] ("")).1 = [] ∧
    (analyzeSecurityIssues enabledSt (fun _ => .noContent) 0 [secFinding] ("")).1 = [] := by
  have hk : keepResult { isValidIssue := true, confidence := 1/2 } = false := by
    norm_num [keepResult]
  refine ⟨rfl, hk, ?_, ?_⟩ <;>
    simp [analyzeSecurityIssues, enabledSt, isEnabled, processSecBatches, runSecBatch,
      validateSecurityIssue] <;>
    norm_num [keepResult]

/-! ## Batch start (C8) -/

/-- The pending job record persisted by `startAnalysis` for one repository. -/
def pendingJob (user : JwtUser) (owner repo jobId : String) (now : Nat) : AnalysisJob :=
  { id := jobId
    userId := user.sub
    repository := { owner := owner, repo := repo, fullName := owner ++ ("/") ++ repo }
    status := .pending
    progress := 0
    createdAt := now }

theorem startAnalysis_eq_pendingJob (user : JwtUser) (owner repo jobId : String) (now : Nat)
    (s : JobStore) :
    startAnalysis user owner repo jobId now s =
      (storeSet s jobId (pendingJob user owner repo jobId now), jobId) :=
  rfl

theorem runBatch_spec (user : JwtUser) (now : Nat) :
    ∀ (repos : List (String × String)) (idGen : Nat → String) (s : JobStore),
    (∀ i, i < repos.length → storeGet s (idGen i) = none) →
    (∀ i, i < repos.length → ∀ i', i' < repos.length → idGen i = idGen i' → i = i') →
    runBatch user now idGen s repos =
      (s ++ (List.zip (List.range repos.length) repos).map (fun p =>
          (idGen p.1, pendingJob user p.2.1 p.2.2 (idGen p.1) now)),
        (List.range repos.length).map idGen) := by
  intro repos
  induction repos with
  | nil => intro idGen s _ _; simp [runBatch]
  | cons hd tl ih =>
    intro idGen s hfresh hinj
    have h0 : storeGet s (idGen 0) = none := hfresh 0 (by simp)
    have hset : storeSet s (idGen 0) (pendingJob user hd.1 hd.2 (idGen 0) now) =
        s ++ [(idGen 0, pendingJob user hd.1 hd.2 (idGen 0) now)] :=
      storeSet_fresh _ _ _ h0
    have hfresh' : ∀ i, i < tl.length →
        storeGet (s ++ [(idGen 0, pendingJob user hd.1 hd.2 (idGen 0) now)])
          (idGen (i + 1)) = none := by
      intro i hi
      have hne : idGen 0 ≠ idGen (i + 1) := by
        intro he
        have := hinj 0 (by simp) (i + 1) (by simpa using Nat.succ_lt_succ hi) he
        omega
      have hs : storeGet s (idGen (i + 1)) = none :=
        hfresh (i + 1) (by simpa using Nat.succ_lt_succ hi)
      rw [storeGet_append_none _ _ _ hs]
      simp [storeGet, hne]
    have hinj' : ∀ i, i < tl.length → ∀ i', i' < tl.length →
        idGen (i + 1) = idGen (i' + 1) → i = i' := by
      intro i hi i' hi' he
      have := hinj (i + 1) (by simpa using Nat.succ_lt_succ hi) (i' + 1)
        (by simpa using Nat.succ_lt_succ hi') he
      omega
    have hrec := ih (fun i => idGen (i + 1))
      (s ++ [(idGen 0, pendingJob user hd.1 hd.2 (idGen 0) now)]) hfresh' hinj'
    simp only [runBatch, startAnalysis_eq_pendingJob, hset, hrec, List.length_cons]
    rw [List.range_succ_eq_map]
    simp [List.zip_map_left, List.zip_cons_cons, List.map_map, Function.comp]

/-- C8. A batch of more than ten repositories is rejected with no job
created (the store is returned unchanged); a non-empty batch of at most ten
repositories creates exactly one pending job per repository (appended to the
store, with the right owner/repo and a pending status) and returns one jobId
per repository, in order.  The freshness/injectivity hypotheses say the
generated ids do not collide — the source generates them from a timestamp
plus a random suffix. -/
theorem startBatchAnalysis_spec (user : JwtUser) (repos : List (String × String))
    (idGen : Nat → String) (now : Nat) (s : JobStore) :
    (10 < repos.length →
      startBatchAnalysis user (some repos) idGen now s =
        (.err ("Maximum 10 repositories allowed per batch"), s)) ∧
    (repos ≠ [] → repos.length ≤ 10 →
      (∀ i, i < repos.length → storeGet s (idGen i) = none) →
      (∀ i, i < repos.length → ∀ i', i' < repos.length → idGen i = idGen i' → i = i') →
      startBatchAnalysis user (some repos) idGen now s =
        (.ok ((List.range repos.length).map idGen),
          s ++ (List.zip (List.range repos.length) repos).map (fun p =>
            (idGen p.1, pendingJob user p.2.1 p.2.2 (idGen p.1) now)))) := by
  constructor
  · intro hlen
    have hne : ¬repos.isEmpty := by
      cases repos with
      | nil => simp at hlen
      | cons a t => simp
    simp [startBatchAnalysis, hne, hlen]
  · intro hne hlen hfresh hinj
    have hemp : ¬repos.isEmpty := by simpa [List.isEmpty_iff] using hne
    have hnlt : ¬10 < repos.length := by omega
    have hrb := runBatch_spec user now repos idGen s hfresh hinj
    simp [startBatchAnalysis, hemp, hnlt, hrb]

/-- A deterministic id generator for the witness. -/
def demoIdGen (k : Nat) : String := ("analysis-") ++ toString k

/-- Eleven repository pairs. -/
def reposEleven : List (String × String) :=
  [(("o1" : String), "r1"), ("o2", "r2"), ("o3", "r3"), ("o4", "r4"), ("o5", "r5"),
   ("o6", "r6"), ("o7", "r7"), ("o8", "r8"), ("o9", "r9"), ("o10", "r10"), ("o11", "r11")]

/-- Two repository pairs. -/
def reposTwo : List (String × String) := [(("alice" : String), "repo1"), ("bob", "repo2")]

/-- A sample authenticated principal. -/
def demoUser : JwtUser := { sub := 42 }

/-- C9. The history view returns at most 50 jobs; every returned job comes
from the store, belongs to the calling principal, is completed (and carries a
result); and the list is ordered most-recent-first by completion time
(adjacent-pairwise non-increasing `completedAt`, missing timestamps counting
as 0, exactly as the source comparator computes). -/
theorem getUserHistory_spec (userId : Int) (s : JobStore) :
    (getUserHistory userId s).length ≤ 50 ∧
    (∀ j ∈ getUserHistory userId s,
      j ∈ storeValues s ∧ j.userId = userId ∧ j.status = JobStatus.completed ∧
        j.result.isSome = true) ∧
    (getUserHistory userId s).Pairwise (fun a b => completedKey b ≤ completedKey a) := by
  refine ⟨?_, ?_, ?_⟩
  · simpa [getUserHistory] using
      List.length_take_le 50
        (((storeValues s).filter
            (fun j => j.userId = userId && j.status = JobStatus.completed &&
              j.result.isSome)).mergeSort
          (fun a b => completedKey b ≤ completedKey a))
  · intro j hj
    have hj1 : j ∈ ((storeValues s).filter
        (fun j => j.userId = userId && j.status = JobStatus.completed &&
          j.result.isSome)).mergeSort
        (fun a b => completedKey b ≤ completedKey a) :=
      List.mem_of_mem_take hj
    have hj2 : j ∈ (storeValues s).filter
        (fun j => j.userId = userId && j.status = JobStatus.completed && j.result.isSome) :=
      (List.mergeSort_perm _ _).subset hj1
    have hmf := List.mem_filter.mp hj2
    have hps := hmf.2
    simp only [Bool.and_eq_true, decide_eq_true_eq] at hps
    exact ⟨hmf.1, hps.1.1, hps.1.2, hps.2⟩
  · have hs := @List.sorted_mergeSort AnalysisJob
      (fun a b : AnalysisJob => decide (completedKey b ≤ completedKey a))
      (fun a b c hab hbc => by
        simp only [decide_eq_true_eq] at *
        exact le_trans hbc hab)
      (fun a b => by
        simp only [Bool.or_eq_true, decide_eq_true_eq]
        exact Nat.le_total (completedKey b) (completedKey a))
      ((storeValues s).filter
        (fun j => j.userId = userId && j.status = JobStatus.completed && j.result.isSome))
    have hp : (((storeValues s).filter
        (fun j => j.userId = userId && j.status = JobStatus.completed &&
          j.result.isSome)).mergeSort
        (fun a b => completedKey b ≤ completedKey a)).Pairwise
        (fun a b : AnalysisJob => completedKey b ≤ completedKey a) :=
      hs.imp (fun h => by simpa using h)
    exact hp.sublist (List.take_sublist _ _)

/-! ## Confidence filter structure lemmas (C5, C6) -/

/-- Induction on a list by chunks of five, matching the batch loop shapes. -/
theorem chunkFiveInduction {α : Type} {motive : List α → Prop}
    (h0 : motive [])
    (h1 : ∀ a, motive [a])
    (h2 : ∀ a b, motive [a, b])
    (h3 : ∀ a b c, motive [a, b, c])
    (h4 : ∀ a b c d, motive [a, b, c, d])
    (h5 : ∀ a b c d e rest, motive rest → motive (a :: b :: c :: d :: e :: rest)) :
    ∀ l, motive l
  | [] => h0
  | [a] => h1 a
  | [a, b] => h2 a b
  | [a, b, c] => h3 a b c
  | [a, b, c, d] => h4 a b c d
  | a :: b :: c :: d :: e :: rest =>
    h5 a b c d e rest (chunkFiveInduction h0 h1 h2 h3 h4 h5 rest)

theorem runSecBatch_append (oracle : Nat → ServiceResponse) (now : Nat) (fc : String) :
    ∀ (l1 l2 : List SecurityIssue) (st : LLMState) (i : Nat),
    runSecBatch oracle now fc st i (l1 ++ l2) =
      ((runSecBatch oracle now fc st i l1).1 ++
        (runSecBatch oracle now fc (runSecBatch oracle now fc st i l1).2.2
          (i + l1.length) l2).1,
       (runSecBatch oracle now fc st i l1).2.1 ++
        (runSecBatch oracle now fc (runSecBatch oracle now fc st i l1).2.2
          (i + l1.length) l2).2.1,
       (runSecBatch oracle now fc (runSecBatch oracle now fc st i l1).2.2
          (i + l1.length) l2).2.2) := by
  intro l1
  induction l1 with
  | nil => intro l2 st i; simp [runSecBatch]
  | cons x xs ih =>
    intro l2 st i
    simp only [List.cons_append, runSecBatch, List.append_eq, ih, List.length_cons]
    have harith : i + 1 + xs.length = i + (xs.length + 1) := by omega
    rw [harith]
    simp [List.append_assoc]

theorem processSecBatches_eq_run (oracle : Nat → ServiceResponse) (now : Nat) (fc : String) :
    ∀ (l : List SecurityIssue) (st : LLMState) (i : Nat),
    processSecBatches oracle now fc st i l = runSecBatch oracle now fc st i l := by
  intro l
  induction l using chunkFiveInduction with
  | h0 => intro st i; rfl
  | h1 a => intro st i; rfl
  | h2 a b => intro st i; rfl
  | h3 a b c => intro st i; rfl
  | h4 a b c d => intro st i; rfl
  | h5 a b c d e rest ih =>
    intro st i
    have happ : runSecBatch oracle now fc st i (a :: b :: c :: d :: e :: rest) =
        ((runSecBatch oracle now fc st i [a, b, c, d, e]).1 ++
          (runSecBatch oracle now fc (runSecBatch oracle now fc st i [a, b, c, d, e]).2.2
            (i + 5) rest).1,
         (runSecBatch oracle now fc st i [a, b, c, d, e]).2.1 ++
          (runSecBatch oracle now fc (runSecBatch oracle now fc st i [a, b, c, d, e]).2.2
            (i + 5) rest).2.1,
         (runSecBatch oracle now fc (runSecBatch oracle now fc st i [a, b, c, d, e]).2.2
            (i + 5) rest).2.2) := by
      simpa using runSecBatch_append oracle now fc [a, b, c, d, e] rest st i
    rw [happ]
    simp [processSecBatches, ih]

theorem runSecBatch_kept_length (oracle : Nat → ServiceResponse) (now : Nat) (fc : String) :
    ∀ (l : List SecurityIssue) (st : LLMState) (i : Nat),
    (runSecBatch oracle now fc st i l).1.length ≤ l.length := by
  intro l
  induction l with
  | nil => intro st i; simp [runSecBatch]
  | cons x xs ih =>
    intro st i
    simp only [runSecBatch, List.length_append, List.length_cons]
    have := ih (validateSecurityIssue st x fc (oracle i) now).2.1 (i + 1)
    split <;> simp <;> omega

theorem runSecBatch_kept_mem (oracle : Nat → ServiceResponse) (now : Nat) (fc : String) :
    ∀ (l : List SecurityIssue) (st : LLMState) (i : Nat) (f : SecurityIssue),
    f ∈ (runSecBatch oracle now fc st i l).1 →
      ∃ g ∈ l, f.file = g.file ∧ f.line = g.line := by
  intro l
  induction l with
  | nil => intro st i f hf; simp [runSecBatch] at hf
  | cons x xs ih =>
    intro st i f hf
    simp only [runSecBatch, List.mem_append] at hf
    rcases hf with hf | hf
    · refine ⟨x, by simp, ?_⟩
      rcases (by split at hf <;> simp_all : f = applySecurityImprove x
        (validateSecurityIssue st x fc (oracle i) now).1) with rfl
      exact ⟨rfl, rfl⟩
    · obtain ⟨g, hg, he⟩ := ih _ (i + 1) f hf
      exact ⟨g, by simp [hg], he⟩

theorem validateSecurityIssue_state_req (st : LLMState) (x : SecurityIssue) (fc : String)
    (resp : ServiceResponse) (now : Nat) :
    ((validateSecurityIssue st x fc resp now).2.1).hasClient = st.hasClient ∧
    (validateSecurityIssue st x fc resp now).2.2 = st.hasClient := by
  by_cases h : st.hasClient <;> cases resp <;>
    simp [validateSecurityIssue, h] <;> split <;> simp [h]

theorem runSecBatch_reqs (oracle : Nat → ServiceResponse) (now : Nat) (fc : String) :
    ∀ (l : List SecurityIssue) (st : LLMState) (i : Nat), st.hasClient = true →
    (runSecBatch oracle now fc st i l).2.1 = l := by
  intro l
  induction l with
  | nil => intro st i _; simp [runSecBatch]
  | cons x xs ih =>
    intro st i hc
    have hv := validateSecurityIssue_state_req st x fc (oracle i) now
    simp only [runSecBatch, hv.2, hc, if_true]
    rw [ih _ (i + 1) (by rw [hv.1]; exact hc)]
    simp

theorem runBPBatch_append (oracle : Nat → ServiceResponse) (now : Nat) (fc : String) :
    ∀ (l1 l2 : List BestPracticeIssue) (st : LLMState) (i : Nat),
    runBPBatch oracle now fc st i (l1 ++ l2) =
      ((runBPBatch oracle now fc st i l1).1 ++
        (runBPBatch oracle now fc (runBPBatch oracle now fc st i l1).2.2
          (i + l1.length) l2).1,
       (runBPBatch oracle now fc st i l1).2.1 ++
        (runBPBatch oracle now fc (runBPBatch oracle now fc st i l1).2.2
          (i + l1.length) l2).2.1,
       (runBPBatch oracle now fc (runBPBatch oracle now fc st i l1).2.2
          (i + l1.length) l2).2.2) := by
  intro l1
  induction l1 with
  | nil => intro l2 st i; simp [runBPBatch]
  | cons x xs ih =>
    intro l2 st i
    simp only [List.cons_append, runBPBatch, List.append_eq, ih, List.length_cons]
    have harith : i + 1 + xs.length = i + (xs.length + 1) := by omega
    rw [harith]
    simp [List.append_assoc]

theorem processBPBatches_eq_run (oracle : Nat → ServiceResponse) (now : Nat) (fc : String) :
    ∀ (l : List BestPracticeIssue) (st : LLMState) (i : Nat),
    processBPBatches oracle now fc st i l = runBPBatch oracle now fc st i l := by
  intro l
  induction l using chunkFiveInduction with
  | h0 => intro st i; rfl
  | h1 a => intro st i; rfl
  | h2 a b => intro st i; rfl
  | h3 a b c => intro st i; rfl
  | h4 a b c d => intro st i; rfl
  | h5 a b c d e rest ih =>
    intro st i
    have happ : runBPBatch oracle now fc st i (a :: b :: c :: d :: e :: rest) =
        ((runBPBatch oracle now fc st i [a, b, c, d, e]).1 ++
          (runBPBatch oracle now fc (runBPBatch oracle now fc st i [a, b, c, d, e]).2.2
            (i + 5) rest).1,
         (runBPBatch oracle now fc st i [a, b, c, d, e]).2.1 ++
          (runBPBatch oracle now fc (runBPBatch oracle now fc st i [a, b, c, d, e]).2.2
            (i + 5) rest).2.1,
         (runBPBatch oracle now fc (runBPBatch oracle now fc st i [a, b, c, d, e]).2.2
            (i + 5) rest).2.2) := by
      simpa using runBPBatch_append oracle now fc [a, b, c, d, e] rest st i
    rw [happ]
    simp [processBPBatches, ih]

theorem runBPBatch_kept_length (oracle : Nat → ServiceResponse) (now : Nat) (fc : String) :
    ∀ (l : List BestPracticeIssue) (st : LLMState) (i : Nat),
    (runBPBatch oracle now fc st i l).1.length ≤ l.length := by
  intro l
  induction l with
  | nil => intro st i; simp [runBPBatch]
  | cons x xs ih =>
    intro st i
    simp only [runBPBatch, List.length_append, List.length_cons]
    have := ih (validateBestPracticeIssue st x fc (oracle i) now).2.1 (i + 1)
    split <;> simp <;> omega

theorem runBPBatch_kept_mem (oracle : Nat → ServiceResponse) (now : Nat) (fc : String) :
    ∀ (l : List BestPracticeIssue) (st : LLMState) (i : Nat) (f : BestPracticeIssue),
    f ∈ (runBPBatch oracle now fc st i l).1 →
      ∃ g ∈ l, f.file = g.file ∧ f.line = g.line := by
  intro l
  induction l with
  | nil => intro st i f hf; simp [runBPBatch] at hf
  | cons x xs ih =>
    intro st i f hf
    simp only [runBPBatch, List.mem_append] at hf
    rcases hf with hf | hf
    · refine ⟨x, by simp, ?_⟩
      rcases (by split at hf <;> simp_all : f = applyBestPracticeImprove x
        (validateBestPracticeIssue st x fc (oracle i) now).1) with rfl
      exact ⟨rfl, rfl⟩
    · obtain ⟨g, hg, he⟩ := ih _ (i + 1) f hf
      exact ⟨g, by simp [hg], he⟩

theorem validateBestPracticeIssue_state_req (st : LLMState) (x : BestPracticeIssue)
    (fc : String) (resp : ServiceResponse) (now : Nat) :
    ((validateBestPracticeIssue st x fc resp now).2.1).hasClient = st.hasClient ∧
    (validateBestPracticeIssue st x fc resp now).2.2 = st.hasClient := by
  by_cases h : st.hasClient <;> cases resp <;>
    simp [validateBestPracticeIssue, h] <;> split <;> simp [h]

theorem runBPBatch_reqs (oracle : Nat → ServiceResponse) (now : Nat) (fc : String) :
    ∀ (l : List BestPracticeIssue) (st : LLMState) (i : Nat), st.hasClient = true →
    (runBPBatch oracle now fc st i l).2.1 = l := by
  intro l
  induction l with
  | nil => intro st i _; simp [runBPBatch]
  | cons x xs ih =>
    intro st i hc
    have hv := validateBestPracticeIssue_state_req st x fc (oracle i) now
    simp only [runBPBatch, hv.2, hc, if_true]
    rw [ih _ (i + 1) (by rw [hv.1]; exact hc)]
    simp

/-- C5. For every service state, every oracle (sequence of service
responses) and both categories, the confidence filter's output is no longer
than its input, and every output finding carries the (file, line) pair of
some input finding — the filter never adds findings. -/
theorem confidence_filter_never_adds (st : LLMState) (oracleS oracleB : Nat → ServiceResponse)
    (now : Nat) (secIssues : List SecurityIssue) (bpIssues : List BestPracticeIssue)
    (fc : String) :
    ((analyzeSecurityIssues st oracleS now secIssues fc).1.length ≤ secIssues.length ∧
      ∀ f ∈ (analyzeSecurityIssues st oracleS now secIssues fc).1,
        ∃ g ∈ secIssues, f.file = g.file ∧ f.line = g.line) ∧
    ((analyzeBestPractices st oracleB now bpIssues fc).1.length ≤ bpIssues.length ∧
      ∀ f ∈ (analyzeBestPractices st oracleB now bpIssues fc).1,
        ∃ g ∈ bpIssues, f.file = g.file ∧ f.line = g.line) := by
  constructor
  · by_cases hcond : (!isEnabled st || secIssues.isEmpty) = true
    · constructor
      · simp [analyzeSecurityIssues, hcond]
      · intro f hf
        refine ⟨f, ?_, rfl, rfl⟩
        simpa [analyzeSecurityIssues, hcond] using hf
    · have hout : (analyzeSecurityIssues st oracleS now secIssues fc).1 =
          (runSecBatch oracleS now fc st 0 (secIssues.take 50)).1 ++ secIssues.drop 50 := by
        simp [analyzeSecurityIssues, hcond, processSecBatches_eq_run]
      constructor
      · rw [hout, List.length_append]
        have h1 := runSecBatch_kept_length oracleS now fc (secIssues.take 50) st 0
        have h2 : (secIssues.take 50).length + (secIssues.drop 50).length =
            secIssues.length := by
          rw [← List.length_append, List.take_append_drop]
        omega
      · intro f hf
        rw [hout, List.mem_append] at hf
        rcases hf with hf | hf
        · obtain ⟨g, hg, he⟩ := runSecBatch_kept_mem oracleS now fc _ st 0 f hf
          exact ⟨g, List.mem_of_mem_take hg, he⟩
        · exact ⟨f, List.mem_of_mem_drop hf, rfl, rfl⟩
  · by_cases hcond : (!isEnabled st || bpIssues.isEmpty) = true
    · constructor
      · simp [analyzeBestPractices, hcond]
      · intro f hf
        refine ⟨f, ?_, rfl, rfl⟩
        simpa [analyzeBestPractices, hcond] using hf
    · have hout : (analyzeBestPractices st oracleB now bpIssues fc).1 =
          (runBPBatch oracleB now fc st 0 (bpIssues.take 50)).1 ++ bpIssues.drop 50 := by
        simp [analyzeBestPractices, hcond, processBPBatches_eq_run]
      constructor
      · rw [hout, List.length_append]
        have h1 := runBPBatch_kept_length oracleB now fc (bpIssues.take 50) st 0
        have h2 : (bpIssues.take 50).length + (bpIssues.drop 50).length =
            bpIssues.length := by
          rw [← List.length_append, List.take_append_drop]
        omega
      · intro f hf
        rw [hout, List.mem_append] at hf
        rcases hf with hf | hf
        · obtain ⟨g, hg, he⟩ := runBPBatch_kept_mem oracleB now fc _ st 0 f hf
          exact ⟨g, List.mem_of_mem_take hg, he⟩
        · exact ⟨f, List.mem_of_mem_drop hf, rfl, rfl⟩

/-- C6. When the filter is enabled, in each category exactly the first 50
findings are submitted for validation (the outbound request list equals
`take 50` of the input), and the output is the kept (validated) findings —
at most 50, each derived from one of the first 50 — followed by every finding
beyond the first 50, appended unmodified in order. -/
theorem confidence_filter_first_fifty (st : LLMState)
    (oracleS oracleB : Nat → ServiceResponse) (now : Nat)
    (secIssues : List SecurityIssue) (bpIssues : List BestPracticeIssue) (fc : String)
    (h : isEnabled st = true) :
    ((analyzeSecurityIssues st oracleS now secIssues fc).2.1 = secIssues.take 50 ∧
      ∃ kept, kept.length ≤ (secIssues.take 50).length ∧
        (∀ f ∈ kept, ∃ g ∈ secIssues.take 50, f.file = g.file ∧ f.line = g.line) ∧
        (analyzeSecurityIssues st oracleS now secIssues fc).1 =
          kept ++ secIssues.drop 50) ∧
    ((analyzeBestPractices st oracleB now bpIssues fc).2.1 = bpIssues.take 50 ∧
      ∃ kept, kept.length ≤ (bpIssues.take 50).length ∧
        (∀ f ∈ kept, ∃ g ∈ bpIssues.take 50, f.file = g.file ∧ f.line = g.line) ∧
        (analyzeBestPractices st oracleB now bpIssues fc).1 =
          kept ++ bpIssues.drop 50) := by
  have hc : st.hasClient = true := by
    have := h
    simp only [isEnabled, Bool.and_eq_true] at this
    exact this.2
  constructor
  · by_cases hemp : secIssues.isEmpty = true
    · rcases List.isEmpty_iff.mp hemp with rfl
      exact ⟨by simp [analyzeSecurityIssues], [], by simp [analyzeSecurityIssues]⟩
    · have hcond : ¬(!isEnabled st || secIssues.isEmpty) = true := by simp [h, hemp]
      refine ⟨?_, (runSecBatch oracleS now fc st 0 (secIssues.take 50)).1, ?_, ?_, ?_⟩
      · simp [analyzeSecurityIssues, hcond, processSecBatches_eq_run,
          runSecBatch_reqs oracleS now fc _ st 0 hc]
      · exact runSecBatch_kept_length oracleS now fc _ st 0
      · intro f hf
        exact runSecBatch_kept_mem oracleS now fc _ st 0 f hf
      · simp [analyzeSecurityIssues, hcond, processSecBatches_eq_run]
  · by_cases hemp : bpIssues.isEmpty = true
    · rcases List.isEmpty_iff.mp hemp with rfl
      exact ⟨by simp [analyzeBestPractices], [], by simp [analyzeBestPractices]⟩
    · have hcond : ¬(!isEnabled st || bpIssues.isEmpty) = true := by simp [h, hemp]
      refine ⟨?_, (runBPBatch oracleB now fc st 0 (bpIssues.take 50)).1, ?_, ?_, ?_⟩
      · simp [analyzeBestPractices, hcond, processBPBatches_eq_run,
          runBPBatch_reqs oracleB now fc _ st 0 hc]
      · exact runBPBatch_kept_length oracleB now fc _ st 0
      · intro f hf
        exact runBPBatch_kept_mem oracleB now fc _ st 0 f hf
      · simp [analyzeBestPractices, hcond, processBPBatches_eq_run]

/-- A sample best-practice finding. -/
def bpFinding : BestPracticeIssue :=
  { file := "a.ts", line := 9, message := "console.log() in production code" }

theorem confidence_filter_first_fifty_witness :
    isEnabled enabledSt = true ∧
    ((analyzeSecurityIssues enabledSt (fun _ => .errQuota) 5 [secFinding] ("")).2.1 =
        [secFinding].take 50 ∧
      ∃ kept, kept.length ≤ ([secFinding].take 50).length ∧
        (∀ f ∈ kept, ∃ g ∈ [secFinding].take 50, f.file = g.file ∧ f.line = g.line) ∧
        (analyzeSecurityIssues enabledSt (fun _ => .errQuota) 5 [secFinding] ("")).1 =
          kept ++ [secFinding].drop 50) ∧
    ((analyzeBestPractices enabledSt (fun _ => .errQuota) 5 [bpFinding] ("")).2.1 =
        [bpFinding].take 50 ∧
      ∃ kept, kept.length ≤ ([bpFinding].take 50).length ∧
        (∀ f ∈ kept, ∃ g ∈ [bpFinding].take 50, f.file = g.file ∧ f.line = g.line) ∧
        (analyzeBestPractices enabledSt (fun _ => .errQuota) 5 [bpFinding] ("")).1 =
          kept ++ [bpFinding].drop 50) :=
  ⟨rfl, confidence_filter_first_fifty enabledSt (fun _ => .errQuota) (fun _ => .errQuota) 5
    [secFinding] [bpFinding] ("") rfl⟩

/-! ## The hardcoded-password scenario (C7) -/

theorem secLineFindings_line (path : String) (l : List Char) (n : Nat) :
    ∀ f ∈ secLineFindings path l n, f.line = n := by
  intro f hf
  simp only [secLineFindings, List.mem_append] at hf
  rcases hf with ((((hf | hf) | hf) | hf) | hf) <;>
    · split at hf <;> simp_all

theorem checkSecAux_line_gt (path : String) :
    ∀ (ls : List (List Char)) (i : Nat) (f : SecurityIssue),
    f ∈ checkSecAux path i ls → i < f.line := by
  intro ls
  induction ls with
  | nil => intro i f hf; simp [checkSecAux] at hf
  | cons l t ih =>
    intro i f hf
    simp only [checkSecAux, List.mem_append] at hf
    rcases hf with hf | hf
    · rw [secLineFindings_line path l (i + 1) f hf]
      omega
    · have := ih (i + 1) f hf
      omega

theorem checkSecAux_filter_at (path : String) (target : List Char) :
    ∀ (pre post : List (List Char)) (i : Nat),
    (checkSecAux path i (pre ++ target :: post)).filter
        (fun f => f.line = i + pre.length + 1) =
      secLineFindings path target (i + pre.length + 1) := by
  intro pre
  induction pre with
  | nil =>
    intro post i
    simp only [List.nil_append, checkSecAux, List.filter_append, List.length_nil,
      Nat.add_zero]
    have h1 : (secLineFindings path target (i + 1)).filter (fun f => f.line = i + 1) =
        secLineFindings path target (i + 1) := by
      rw [List.filter_eq_self]
      intro f hf
      simp [secLineFindings_line path target (i + 1) f hf]
    have h2 : (checkSecAux path (i + 1) post).filter (fun f => f.line = i + 1) = [] := by
      rw [List.filter_eq_nil_iff]
      intro f hf
      have := checkSecAux_line_gt path post (i + 1) f hf
      simp only [decide_eq_true_eq]
      omega
    rw [h1, h2, List.append_nil]
  | cons p ps ih =>
    intro post i
    simp only [List.cons_append, checkSecAux, List.filter_append, List.length_cons,
      List.append_eq]
    have he : i + (ps.length + 1) + 1 = i + 1 + ps.length + 1 := by omega
    simp only [he]
    have h1 : (secLineFindings path p (i + 1)).filter
        (fun f => f.line = i + 1 + ps.length + 1) = [] := by
      rw [List.filter_eq_nil_iff]
      intro f hf
      have := secLineFindings_line path p (i + 1) f hf
      simp only [decide_eq_true_eq]
      omega
    rw [h1, ih post (i + 1), List.nil_append]

/-- The characters of the example line of §8. -/
def hunterLine : List Char := ("const password = \"hunter2hunter\";").data

/-- The single finding the pattern detector emits for the example line. -/
def hunterFinding (path : String) (n : Nat) : SecurityIssue :=
  { file := path, line := n, severity := .high,
    message := "Hardcoded password detected",
    recommendation := some ("Use environment variables (process.env) or a secrets manager (AWS Secrets Manager, HashiCorp Vault). Add to .gitignore and use .env.example for documentation."),
    codeSnippet := some ("const password = \"hunter2hunter\";") }

theorem secLine_hunter (path : String) (n : Nat) :
    secLineFindings path hunterLine n = [hunterFinding path n] := by
  have h1 : (secretAssignTest hunterLine && !testAnyCI hardcodedNegLits hunterLine &&
      !trimStartsWith hunterLine ("//") && !trimStartsWith hunterLine ("*") &&
      !trimStartsWith hunterLine ("#")) = true := by decide
  have h2 : sqlInjTest hunterLine = false := by decide
  have h3 : evalTest hunterLine = false := by decide
  have h4 : mathRandomTest hunterLine = false := by decide
  have h5 : weakHashTest hunterLine = false := by decide
  have h8 : firstSecretKeyword hunterLine = some (("password").data) := by decide
  have h9 : String.mk (("password").data) = ("password" : String) := rfl
  have h10 : (("Hardcoded " : String)) ++ ("password" : String) ++ (" detected") =
      ("Hardcoded password detected" : String) := by decide
  have h11 : snippetOf hunterLine = ("const password = \"hunter2hunter\";") := by decide
  simp [secLineFindings, h1, h2, h3, h4, h5, h8, h9, h10, h11, hunterFinding]

/-- C7. For any file content whose lines contain the example line
`const password = "hunter2hunter";` and any file path, the security check
emits, for that line, exactly one finding: severity high, message containing
"password", at the line's 1-based position. -/
theorem hardcoded_password_single_finding (path content : String)
    (pre post : List (List Char)) (h : splitLines content = pre ++ hunterLine :: post) :
    (checkSecurityIssues path content).filter (fun f => f.line = pre.length + 1) =
      [hunterFinding path (pre.length + 1)] ∧
    (hunterFinding path (pre.length + 1)).severity = Severity.high ∧
    containsCS (("password").data)
      ((hunterFinding path (pre.length + 1)).message).data = true := by
  refine ⟨?_, rfl, ?_⟩
  case refine_2 =>
    show containsCS (("password").data) (("Hardcoded password detected").data) = true
    decide
  rw [checkSecurityIssues, h]
  have hfil := checkSecAux_filter_at path hunterLine pre post 0
  have h0 : (0 : Nat) + pre.length + 1 = pre.length + 1 := by omega
  rw [h0] at hfil
  rw [hfil, secLine_hunter]

/-- A three-line file containing the example line as its second line. -/
def hunterContent : String := "let x = 1\nconst password = \"hunter2hunter\";\nmore()"

theorem hardcoded_password_single_finding_witness :
    splitLines hunterContent = [("let x = 1").data] ++ hunterLine :: [("more()").data] ∧
    (checkSecurityIssues ("src/login.ts") hunterContent).filter
        (fun f => f.line = [("let x = 1").data].length + 1) =
      [hunterFinding ("src/login.ts") ([("let x = 1").data].length + 1)] :=
  ⟨by decide, (hardcoded_password_single_finding ("src/login.ts") hunterContent
      [("let x = 1").data] [("more()").data] (by decide)).1⟩

theorem startBatchAnalysis_spec_witness :
    startBatchAnalysis demoUser (some reposEleven) demoIdGen 0 [] =
      (.err ("Maximum 10 repositories allowed per batch"), []) ∧
    startBatchAnalysis demoUser (some reposTwo) demoIdGen 0 [] =
      (.ok ((List.range reposTwo.length).map demoIdGen),
        [] ++ (List.zip (List.range reposTwo.length) reposTwo).map (fun p =>
          (demoIdGen p.1, pendingJob demoUser p.2.1 p.2.2 (demoIdGen p.1) 0))) :=
  ⟨(startBatchAnalysis_spec demoUser reposEleven demoIdGen 0 []).1 (by decide),
   (startBatchAnalysis_spec demoUser reposTwo demoIdGen 0 []).2 (by decide) (by decide)
     (by decide) (by decide)⟩
